import Mathlib

/-!
Verification of the mongo-manager core: the connection-pooling MongoDB
client manager (`backend/src/services/mongoClient.js`), the shell command
interpreter (`executeShell` in the server controller), and the extended-JSON
codec (`convertExtendedJson` / `documentToJson` in
`backend/src/controllers/documents.js`).

The JavaScript source is shallowly embedded: JSON values become an inductive
`Json`, driver-native values become `BVal`, the client pool becomes an
association list keyed by connection id, and the asynchronous `getClient`
is additionally given as a small step machine whose suspension point is the
`await client.connect()` call.  JavaScript builtins (`JSON.parse`,
`new Date`, `encodeURIComponent`, the driver itself) are modelled as
explicit parameters or as small executable models, noted at each site.
-/

/-- JSON values as produced by `JSON.parse`.  Numbers are modelled as
integers: no claim in this development depends on fractional numbers. -/
inductive Json where
  | null
  | bool (b : Bool)
  | num (n : Int)
  | str (s : String)
  | arr (xs : List Json)
  | obj (fs : List (String × Json))
deriving Repr

/-- Driver-native values after extended-JSON decoding: ObjectId carries its
canonical (lowercase) 24-hex representation, Date carries its millisecond
timestamp (`none` models a JavaScript Invalid Date). -/
inductive BVal where
  | null
  | bool (b : Bool)
  | num (n : Int)
  | str (s : String)
  | oid (hex : String)
  | date (ms : Option Int)
  | arr (xs : List BVal)
  | obj (fs : List (String × BVal))
deriving Repr

mutual
/-- Boolean equality on `Json` (the derive handler does not support nested
inductives on this toolchain). -/
def jsonBeq : Json → Json → Bool
  | .null, .null => true
  | .bool a, .bool b => a == b
  | .num a, .num b => a == b
  | .str a, .str b => a == b
  | .arr a, .arr b => jsonBeqList a b
  | .obj a, .obj b => jsonBeqFields a b
  | _, _ => false

def jsonBeqList : List Json → List Json → Bool
  | [], [] => true
  | x :: xs, y :: ys => jsonBeq x y && jsonBeqList xs ys
  | _, _ => false

def jsonBeqFields : List (String × Json) → List (String × Json) → Bool
  | [], [] => true
  | (k, v) :: xs, (k', v') :: ys => k == k' && jsonBeq v v' && jsonBeqFields xs ys
  | _, _ => false
end

mutual
/-- Boolean equality on `BVal`. -/
def bvalBeq : BVal → BVal → Bool
  | .null, .null => true
  | .bool a, .bool b => a == b
  | .num a, .num b => a == b
  | .str a, .str b => a == b
  | .oid a, .oid b => a == b
  | .date a, .date b => a == b
  | .arr a, .arr b => bvalBeqList a b
  | .obj a, .obj b => bvalBeqFields a b
  | _, _ => false

def bvalBeqList : List BVal → List BVal → Bool
  | [], [] => true
  | x :: xs, y :: ys => bvalBeq x y && bvalBeqList xs ys
  | _, _ => false

def bvalBeqFields : List (String × BVal) → List (String × BVal) → Bool
  | [], [] => true
  | (k, v) :: xs, (k', v') :: ys => k == k' && bvalBeq v v' && bvalBeqFields xs ys
  | _, _ => false
end

/-- Strong induction on the size of a `Json` tree. -/
theorem json_size_ind (P : Json → Prop)
    (h : ∀ j, (∀ k, sizeOf k < sizeOf j → P k) → P j) : ∀ j, P j := by
  have step : ∀ n (j : Json), sizeOf j < n → P j := by
    intro n
    induction n with
    | zero => intro j hj; omega
    | succ n ih => intro j _; exact h j (fun k hk => ih k (by omega))
  exact fun j => step (sizeOf j + 1) j (by omega)

/-- Strong induction on the size of a `BVal` tree. -/
theorem bval_size_ind (P : BVal → Prop)
    (h : ∀ j, (∀ k, sizeOf k < sizeOf j → P k) → P j) : ∀ j, P j := by
  have step : ∀ n (j : BVal), sizeOf j < n → P j := by
    intro n
    induction n with
    | zero => intro j hj; omega
    | succ n ih => intro j _; exact h j (fun k hk => ih k (by omega))
  exact fun j => step (sizeOf j + 1) j (by omega)

theorem sizeOf_lt_of_mem_arr {x : Json} {xs : List Json} (h : x ∈ xs) :
    sizeOf x < sizeOf (Json.arr xs) := by
  have := List.sizeOf_lt_of_mem h
  simp only [Json.arr.sizeOf_spec]
  omega

theorem sizeOf_lt_of_mem_obj {k : String} {v : Json} {fs : List (String × Json)}
    (h : (k, v) ∈ fs) : sizeOf v < sizeOf (Json.obj fs) := by
  have h1 := List.sizeOf_lt_of_mem h
  have h2 : sizeOf (k, v) = 1 + sizeOf k + sizeOf v := rfl
  simp only [Json.obj.sizeOf_spec]
  omega

theorem jsonBeqList_iff {xs : List Json}
    (ih : ∀ x ∈ xs, ∀ b, jsonBeq x b = true ↔ x = b) :
    ∀ ys, jsonBeqList xs ys = true ↔ xs = ys := by
  induction xs with
  | nil => intro ys; cases ys <;> simp [jsonBeqList]
  | cons x xs tail_ih =>
    intro ys
    cases ys with
    | nil => simp [jsonBeqList]
    | cons y ys =>
      have hx := ih x (List.mem_cons_self x xs) y
      have ht := tail_ih (fun z hz b => ih z (List.mem_cons_of_mem x hz) b) ys
      simp [jsonBeqList, hx, ht]

theorem jsonBeqFields_iff {xs : List (String × Json)}
    (ih : ∀ p ∈ xs, ∀ b, jsonBeq p.2 b = true ↔ p.2 = b) :
    ∀ ys, jsonBeqFields xs ys = true ↔ xs = ys := by
  induction xs with
  | nil => intro ys; cases ys <;> simp [jsonBeqFields]
  | cons x xs tail_ih =>
    intro ys
    cases ys with
    | nil => simp [jsonBeqFields]
    | cons y ys =>
      obtain ⟨k, v⟩ := x
      obtain ⟨k', v'⟩ := y
      have hx := ih (k, v) (List.mem_cons_self _ xs) v'
      have ht := tail_ih (fun z hz b => ih z (List.mem_cons_of_mem _ hz) b) ys
      simp only [jsonBeqFields, Bool.and_eq_true, beq_iff_eq, hx, ht,
        Prod.mk.injEq, List.cons.injEq]
      try tauto

theorem jsonBeq_iff : ∀ a b : Json, jsonBeq a b = true ↔ a = b := by
  intro a
  induction a using json_size_ind with
  | h a ih =>
    intro b
    cases a <;> cases b <;> try simp [jsonBeq]
    case arr.arr xs ys =>
      exact jsonBeqList_iff (fun x hx b => ih x (sizeOf_lt_of_mem_arr hx) b) ys
    case obj.obj xs ys =>
      exact jsonBeqFields_iff
        (fun p hp b => ih p.2 (by obtain ⟨k, v⟩ := p; exact sizeOf_lt_of_mem_obj hp) b) ys

instance : DecidableEq Json := fun a b =>
  if h : jsonBeq a b = true then .isTrue ((jsonBeq_iff a b).1 h)
  else .isFalse (fun e => h ((jsonBeq_iff a b).2 e))

theorem bval_sizeOf_lt_of_mem_arr {x : BVal} {xs : List BVal} (h : x ∈ xs) :
    sizeOf x < sizeOf (BVal.arr xs) := by
  have := List.sizeOf_lt_of_mem h
  simp only [BVal.arr.sizeOf_spec]
  omega

theorem bval_sizeOf_lt_of_mem_obj {k : String} {v : BVal} {fs : List (String × BVal)}
    (h : (k, v) ∈ fs) : sizeOf v < sizeOf (BVal.obj fs) := by
  have h1 := List.sizeOf_lt_of_mem h
  have h2 : sizeOf (k, v) = 1 + sizeOf k + sizeOf v := rfl
  simp only [BVal.obj.sizeOf_spec]
  omega

theorem bvalBeqList_iff {xs : List BVal}
    (ih : ∀ x ∈ xs, ∀ b, bvalBeq x b = true ↔ x = b) :
    ∀ ys, bvalBeqList xs ys = true ↔ xs = ys := by
  induction xs with
  | nil => intro ys; cases ys <;> simp [bvalBeqList]
  | cons x xs tail_ih =>
    intro ys
    cases ys with
    | nil => simp [bvalBeqList]
    | cons y ys =>
      have hx := ih x (List.mem_cons_self x xs) y
      have ht := tail_ih (fun z hz b => ih z (List.mem_cons_of_mem x hz) b) ys
      simp [bvalBeqList, hx, ht]

theorem bvalBeqFields_iff {xs : List (String × BVal)}
    (ih : ∀ p ∈ xs, ∀ b, bvalBeq p.2 b = true ↔ p.2 = b) :
    ∀ ys, bvalBeqFields xs ys = true ↔ xs = ys := by
  induction xs with
  | nil => intro ys; cases ys <;> simp [bvalBeqFields]
  | cons x xs tail_ih =>
    intro ys
    cases ys with
    | nil => simp [bvalBeqFields]
    | cons y ys =>
      obtain ⟨k, v⟩ := x
      obtain ⟨k', v'⟩ := y
      have hx := ih (k, v) (List.mem_cons_self _ xs) v'
      have ht := tail_ih (fun z hz b => ih z (List.mem_cons_of_mem _ hz) b) ys
      simp only [bvalBeqFields, Bool.and_eq_true, beq_iff_eq, hx, ht,
        Prod.mk.injEq, List.cons.injEq]
      try tauto

theorem bvalBeq_iff : ∀ a b : BVal, bvalBeq a b = true ↔ a = b := by
  intro a
  induction a using bval_size_ind with
  | h a ih =>
    intro b
    cases a <;> cases b <;> try simp [bvalBeq]
    case arr.arr xs ys =>
      exact bvalBeqList_iff (fun x hx b => ih x (bval_sizeOf_lt_of_mem_arr hx) b) ys
    case obj.obj xs ys =>
      exact bvalBeqFields_iff
        (fun p hp b => ih p.2 (by obtain ⟨k, v⟩ := p; exact bval_sizeOf_lt_of_mem_obj hp) b) ys

instance : DecidableEq BVal := fun a b =>
  if h : bvalBeq a b = true then .isTrue ((bvalBeq_iff a b).1 h)
  else .isFalse (fun e => h ((bvalBeq_iff a b).2 e))

/-- JavaScript truthiness of a JSON value (NaN is not modelled). -/
def jsTruthy : Json → Bool
  | .null => false
  | .bool b => b
  | .num n => n != 0
  | .str s => s != ""
  | .arr _ => true
  | .obj _ => true

/-- Property access `o.k` on a parsed JSON object (`JSON.parse` produces
unique keys, so the first binding is the binding). -/
def lookupField (fs : List (String × Json)) (k : String) : Option Json :=
  (fs.find? (fun p => p.1 = k)).map (fun p => p.2)

/-- Hex digit test used by the driver's `ObjectId.isValid`. -/
def isHexChar (c : Char) : Bool :=
  c.isDigit || (('a' ≤ c && c ≤ 'f') || ('A' ≤ c && c ≤ 'F'))

/-- Model of the driver's `ObjectId.isValid` on strings: a 24-character hex
string (the modern bson validity check for string inputs). -/
def isValidOidStr (s : String) : Bool :=
  s.data.length == 24 && s.data.all isHexChar

/-- The message of the `BSONError` thrown by `new ObjectId(string)` on an
invalid string. -/
def oidErrMsg : String :=
  "input must be a 24 character hex string, 12 byte Uint8Array, or an integer"

/-- `new ObjectId(s).toString()` emits lowercase hex; the model normalizes
at construction. -/
def oidNormalize (s : String) : String := String.mk (s.data.map Char.toLower)

/- ### Model of the JavaScript `Date` builtin (ISO-8601 subset)

`new Date(x)` never throws; an unparseable string yields an Invalid Date,
modelled as `none`.  Only the two ISO forms relevant to the codec are
parsed: `YYYY-MM-DD` (UTC midnight) and `YYYY-MM-DDTHH:MM:SS.mmmZ`;
all other strings are modelled as Invalid Date.  `toISOString` (used by
`documentToJson`) throws a `RangeError` on an Invalid Date. -/

/-- Days since 1970-01-01 of a civil date (Howard Hinnant's algorithm,
truncating integer division as in the reference implementation). -/
def daysFromCivil (y m d : Int) : Int :=
  let y' : Int := if m ≤ 2 then y - 1 else y
  let era : Int := (if 0 ≤ y' then y' else y' - 399) / 400
  let yoe : Int := y' - era * 400
  let mp : Int := (m + 9) % 12
  let doy : Int := (153 * mp + 2) / 5 + d - 1
  let doe : Int := yoe * 365 + yoe / 4 - yoe / 100 + doy
  era * 146097 + doe - 719468

/-- Civil date (year, month, day) of a count of days since 1970-01-01. -/
def civilFromDays (z0 : Int) : Int × Int × Int :=
  let z : Int := z0 + 719468
  let era : Int := (if 0 ≤ z then z else z - 146096) / 146097
  let doe : Int := z - era * 146097
  let yoe : Int := (doe - doe / 1460 + doe / 36524 - doe / 146096) / 365
  let y : Int := yoe + era * 400
  let doy : Int := doe - (365 * yoe + yoe / 4 - yoe / 100)
  let mp : Int := (5 * doy + 2) / 153
  let d : Int := doy - (153 * mp + 2) / 5 + 1
  let m : Int := if mp < 10 then mp + 3 else mp - 9
  (if m ≤ 2 then y + 1 else y, m, d)

/-- Zero-padded decimal rendering of a natural number. -/
def padNat (width n : Nat) : String :=
  let s := toString n
  (String.mk (List.replicate (width - s.length) '0')) ++ s

/-- Model of `Date.prototype.toISOString` for a valid timestamp within the
four-digit-year range (the only range this development evaluates it on). -/
def toISOString (ms : Int) : String :=
  let day : Int := Int.ediv ms 86400000
  let msod : Int := Int.emod ms 86400000
  let c := civilFromDays day
  let hh : Int := Int.ediv msod 3600000
  let mi : Int := Int.emod (Int.ediv msod 60000) 60
  let ss : Int := Int.emod (Int.ediv msod 1000) 60
  let mmm : Int := Int.emod msod 1000
  padNat 4 c.1.toNat ++ "-" ++ padNat 2 c.2.1.toNat ++ "-" ++ padNat 2 c.2.2.toNat ++
    "T" ++ padNat 2 hh.toNat ++ ":" ++ padNat 2 mi.toNat ++ ":" ++ padNat 2 ss.toNat ++
    "." ++ padNat 3 mmm.toNat ++ "Z"

/-- Number of days in a month of the proleptic Gregorian calendar. -/
def daysInMonth (y m : Int) : Int :=
  if m = 2 then
    if y % 4 = 0 && (y % 100 ≠ 0 || y % 400 = 0) then 29 else 28
  else if m = 4 || m = 6 || m = 9 || m = 11 then 30
  else 31

/-- Read a fixed-width run of decimal digits. -/
def readDigits : List Char → Nat → Option Nat
  | _, 0 => some 0
  | [], _ + 1 => none
  | c :: cs, n + 1 =>
      if c.isDigit then
        match readDigits cs n with
        | some v => some ((c.toNat - '0'.toNat) * 10 ^ n + v)
        | none => none
      else none

/-- Model of JavaScript date-string parsing restricted to the ISO forms
`YYYY-MM-DD` (UTC midnight) and `YYYY-MM-DDTHH:MM:SS.mmmZ`; every other
string is modelled as yielding an Invalid Date (`none`). -/
def parseDateMs (s : String) : Option Int :=
  let cs := s.data
  match readDigits cs 4 with
  | none => none
  | some y =>
    match cs.drop 4 with
    | '-' :: r1 =>
      match readDigits r1 2 with
      | none => none
      | some mo =>
        match r1.drop 2 with
        | '-' :: r2 =>
          match readDigits r2 2 with
          | none => none
          | some d =>
            if 1 ≤ mo && mo ≤ 12 && 1 ≤ d && (d : Int) ≤ daysInMonth y mo then
              let base : Int := daysFromCivil y mo d * 86400000
              match r2.drop 2 with
              | [] => some base
              | 'T' :: r3 =>
                match readDigits r3 2, r3.drop 2 with
                | some hh, ':' :: r4 =>
                  match readDigits r4 2, r4.drop 2 with
                  | some mi, ':' :: r5 =>
                    match readDigits r5 2, r5.drop 2 with
                    | some ss, '.' :: r6 =>
                      match readDigits r6 3, r6.drop 3 with
                      | some mmm, ['Z'] =>
                        if hh ≤ 23 && mi ≤ 59 && ss ≤ 59 then
                          some (base + hh * 3600000 + mi * 60000 + ss * 1000 + mmm)
                        else none
                      | _, _ => none
                    | _, _ => none
                  | _, _ => none
                | _, _ => none
              | _ => none
            else none
        | _ => none
    | _ => none

/-- The `$oid` wrapper test of `convertExtendedJson`:
`obj.$oid && typeof obj.$oid === 'string'` — a truthy (nonempty) string. -/
def oidTruthyStr (fs : List (String × Json)) : Option String :=
  match lookupField fs "$oid" with
  | some (.str s) => if s = "" then none else some s
  | _ => none

/-- The `$date` wrapper test of `convertExtendedJson`: `obj.$date` truthy. -/
def dateTruthy (fs : List (String × Json)) : Option Json :=
  match lookupField fs "$date" with
  | some v => if jsTruthy v then some v else none
  | none => none

/-- `new Date(v)` for the wrapper payload.  Strings parse via the ISO model,
numbers are millisecond timestamps, `true` coerces to 1; array and object
payloads are modelled as Invalid Date. -/
def jsNewDate : Json → Option Int
  | .str s => parseDateMs s
  | .num n => some n
  | .bool b => some (if b then 1 else 0)
  | _ => none

/-- The guard of the `_id` special case in `convertExtendedJson`:
`key === '_id' && typeof value === 'string' && ObjectId.isValid(value)`. -/
def idOidOf (k : String) (v : Json) : Option String :=
  match v with
  | .str s => if k = "_id" && isValidOidStr s then some s else none
  | _ => none

mutual
/-- Embedding of `convertExtendedJson` (documents.js lines 26-60): decodes
extended-JSON wrappers into driver-native values.  `new ObjectId` throws on
an invalid string, hence the `Except`. -/
def convertExtendedJson : Json → Except String BVal
  | .null => .ok .null
  | .bool b => .ok (.bool b)
  | .num n => .ok (.num n)
  | .str s => .ok (.str s)
  | .arr xs =>
    match convList xs with
    | .ok ys => .ok (.arr ys)
    | .error e => .error e
  | .obj fs =>
    match oidTruthyStr fs with
    | some s =>
        if isValidOidStr s then .ok (.oid (oidNormalize s)) else .error oidErrMsg
    | none =>
      match dateTruthy fs with
      | some v => .ok (.date (jsNewDate v))
      | none =>
        match convFields fs with
        | .ok gs => .ok (.obj gs)
        | .error e => .error e

/-- `obj.map(convertExtendedJson)` on arrays. -/
def convList : List Json → Except String (List BVal)
  | [] => .ok []
  | x :: r =>
    match convertExtendedJson x with
    | .error e => .error e
    | .ok b =>
      match convList r with
      | .error e => .error e
      | .ok bs => .ok (b :: bs)

/-- The property-recursion loop of `convertExtendedJson`, including the
`_id` special case (string `_id` values that are valid ObjectIds convert). -/
def convFields : List (String × Json) → Except String (List (String × BVal))
  | [] => .ok []
  | (k, v) :: r =>
    let conv : Except String BVal :=
      match idOidOf k v with
      | some s => .ok (.oid (oidNormalize s))
      | none => convertExtendedJson v
    match conv with
    | .error e => .error e
    | .ok b =>
      match convFields r with
      | .error e => .error e
      | .ok bs => .ok ((k, b) :: bs)
end

mutual
/-- Embedding of `documentToJson` (documents.js lines 67-93): encodes
driver-native values back into extended-JSON wrappers.  `toISOString`
throws a `RangeError` on an Invalid Date, hence the `Except`. -/
def documentToJson : BVal → Except String Json
  | .null => .ok .null
  | .bool b => .ok (.bool b)
  | .num n => .ok (.num n)
  | .str s => .ok (.str s)
  | .oid h => .ok (.obj [("$oid", .str h)])
  | .date (some t) => .ok (.obj [("$date", .str (toISOString t))])
  | .date none => .error "Invalid time value"
  | .arr xs =>
    match docList xs with
    | .ok ys => .ok (.arr ys)
    | .error e => .error e
  | .obj fs =>
    match docFields fs with
    | .ok gs => .ok (.obj gs)
    | .error e => .error e

/-- `doc.map(documentToJson)` on arrays. -/
def docList : List BVal → Except String (List Json)
  | [] => .ok []
  | x :: r =>
    match documentToJson x with
    | .error e => .error e
    | .ok j =>
      match docList r with
      | .error e => .error e
      | .ok js => .ok (j :: js)

/-- The property-recursion loop of `documentToJson`. -/
def docFields : List (String × BVal) → Except String (List (String × Json))
  | [] => .ok []
  | (k, v) :: r =>
    match documentToJson v with
    | .error e => .error e
    | .ok j =>
      match docFields r with
      | .error e => .error e
      | .ok js => .ok ((k, j) :: js)
end

/- ### Predicates over extended-JSON trees used to settle the codec claims -/

mutual
/-- A tree contains a wrapper object whose `$oid` payload is a truthy string
that is not a valid ObjectId — exactly the inputs on which
`convertExtendedJson` throws (the only throwing site is `new ObjectId`).
The recursion mirrors `convertExtendedJson`: children of a recognized
`$oid`/`$date` wrapper are never visited by the decoder. -/
def hasBadOid : Json → Bool
  | .null => false
  | .bool _ => false
  | .num _ => false
  | .str _ => false
  | .arr xs => hasBadList xs
  | .obj fs =>
    match oidTruthyStr fs with
    | some s => !isValidOidStr s
    | none =>
      match dateTruthy fs with
      | some _ => false
      | none => hasBadFields fs

def hasBadList : List Json → Bool
  | [] => false
  | x :: r => hasBadOid x || hasBadList r

def hasBadFields : List (String × Json) → Bool
  | [] => false
  | (k, v) :: r =>
    (match idOidOf k v with
     | some _ => false
     | none => hasBadOid v) || hasBadFields r
end

/-- No field of the object triggers the `_id` auto-conversion of
`convertExtendedJson`. -/
def noIdFields (fs : List (String × Json)) : Bool :=
  fs.all (fun p => (idOidOf p.1 p.2).isNone)

mutual
/-- Canonical extended-JSON trees: every `$oid` wrapper is a single-field
object holding a valid lowercase hex id, every `$date` wrapper is a
single-field object holding a string fixed by parse-then-`toISOString`,
and no other object has a truthy `$oid`/`$date` field or an `_id` field
holding a valid ObjectId string.  On this subset encode is a left inverse
of decode. -/
def canonicalEJ : Json → Bool
  | .null => true
  | .bool _ => true
  | .num _ => true
  | .str _ => true
  | .arr xs => canonList xs
  | .obj fs =>
    match oidTruthyStr fs with
    | some s => fs == [("$oid", Json.str s)] && isValidOidStr s && oidNormalize s == s
    | none =>
      match dateTruthy fs with
      | some (.str s) =>
        fs == [("$date", Json.str s)] &&
          (match parseDateMs s with
           | some t => toISOString t == s
           | none => false)
      | some _ => false
      | none => noIdFields fs && canonFields fs

def canonList : List Json → Bool
  | [] => true
  | x :: r => canonicalEJ x && canonList r

def canonFields : List (String × Json) → Bool
  | [] => true
  | (_, v) :: r => canonicalEJ v && canonFields r
end

/- ### Connection pool manager (`backend/src/services/mongoClient.js`)

`this.clients` is a JavaScript `Map` from connection id to
`{client, lastUsed}`; it is embedded as an association list with `Map`
insertion-order semantics.  Driver client handles are opaque naturals. -/

structure PoolEntry where
  client : Nat
  lastUsed : Int
deriving DecidableEq, Repr

abbrev PoolMap := List (String × PoolEntry)

/-- `Map.get` (also standing for `Map.has` via `Option.isSome`). -/
def mapGet (m : PoolMap) (k : String) : Option PoolEntry :=
  (m.find? (fun p => p.1 = k)).map (fun p => p.2)

/-- `Map.set`: updates in place, appends if absent. -/
def mapSet (m : PoolMap) (k : String) (v : PoolEntry) : PoolMap :=
  match m with
  | [] => [(k, v)]
  | (k', v') :: r => if k' = k then (k, v) :: r else (k', v') :: mapSet r k v

/-- `Map.delete` (the map never holds a duplicate key). -/
def mapDelete (m : PoolMap) (k : String) : PoolMap :=
  m.filter (fun p => !(p.1 == k))

/-- Keys are pairwise distinct — the `Map` representation invariant. -/
def keysNodup (m : PoolMap) : Prop := (m.map Prod.fst).Nodup

/-- Manager state: the client map plus the observable effects of the
driver calls it makes (`closed` lists the handles whose `client.close()`
was invoked, `log` the `console.error` lines). -/
structure MState where
  pool : PoolMap
  closed : List Nat
  log : List String
deriving DecidableEq, Repr

/-- Embedding of `closeConnection` (mongoClient.js lines 436-446): when a
cached client exists, `client.close()` is attempted, a close error is
logged and swallowed, and the map entry is removed; otherwise no-op.
`closeErr h = some m` models `client.close()` rejecting with message `m`. -/
def closeConnection (s : MState) (id : String) (closeErr : Nat → Option String) : MState :=
  match mapGet s.pool id with
  | some e =>
    { pool := mapDelete s.pool id
      closed := s.closed ++ [e.client]
      log :=
        match closeErr e.client with
        | some m => s.log ++ ["Error closing connection " ++ id ++ ": " ++ m]
        | none => s.log }
  | none => s

/-- Embedding of `closeAllConnections` (lines 451-455). -/
def closeAllConnections (s : MState) (closeErr : Nat → Option String) : MState :=
  s.pool.foldl (fun acc p => closeConnection acc p.1 closeErr) s

/-- The persisted `ConnectionRecord`; `none` models an absent field. -/
structure ConnConfig where
  id : String
  host : Option String
  port : Option Nat
  username : Option String
  password : Option String
  authDatabase : Option String
  uri : Option String
deriving DecidableEq, Repr

/-- Embedding of `buildUri` (lines 330-352); `enc` models the
`encodeURIComponent` builtin. -/
def buildUri (enc : String → String) (c : ConnConfig) : String :=
  if c.uri.getD "" ≠ "" then c.uri.getD ""
  else
    let user := c.username.getD ""
    let pass := c.password.getD ""
    let auth := if user ≠ "" && pass ≠ "" then enc user ++ ":" ++ enc pass ++ "@" else ""
    let host := if c.host.getD "" = "" then "localhost" else c.host.getD ""
    let port := if c.port.getD 0 = 0 then 27017 else c.port.getD 0
    let tail :=
      if c.authDatabase.getD "" ≠ "" && user ≠ "" then
        "/?authSource=" ++ c.authDatabase.getD ""
      else ""
    "mongodb://" ++ auth ++ host ++ ":" ++ toString port ++ tail

/-- Embedding of one sequential call of `getClient` (lines 359-407).
`configs` is the fresh `loadConnections()` result of this call;
`connectResult` models the outcome of `new MongoClient(uri, options)` plus
`await client.connect()` (handle on success, driver message on rejection);
`now` models `Date.now()`. -/
def getClientOnce (configs : List ConnConfig) (s : MState) (id : String)
    (connectResult : Except String Nat) (closeErr : Nat → Option String)
    (now : Int) : Except String Nat × MState :=
  match configs.find? (fun c => c.id = id) with
  | none =>
    -- connection was deleted: close cached client if it exists, then throw
    let s' := if (mapGet s.pool id).isSome then closeConnection s id closeErr else s
    (.error ("Connection not found: " ++ id), s')
  | some _ =>
    match mapGet s.pool id with
    | some e =>
      (.ok e.client, { s with pool := mapSet s.pool id { e with lastUsed := now } })
    | none =>
      match connectResult with
      | .ok h => (.ok h, { s with pool := mapSet s.pool id { client := h, lastUsed := now } })
      | .error m => (.error ("Failed to connect to MongoDB server: " ++ m), s)

/-- `this.idleTimeout = 5 * 60 * 1000` (line 320). -/
def idleTimeout : Int := 5 * 60 * 1000

/-- The `setInterval` period of `startCleanupInterval` (line 517). -/
def cleanupIntervalMs : Nat := 60000

/-- Embedding of one tick of `startCleanupInterval` (lines 509-518): scan
the map and close+evict every entry with `now - lastUsed > idleTimeout`. -/
def cleanupSweep (now : Int) (s : MState) (closeErr : Nat → Option String) : MState :=
  s.pool.foldl
    (fun acc p => if idleTimeout < now - p.2.lastUsed then closeConnection acc p.1 closeErr else acc)
    s

/-- Embedding of the static `parseObjectId` helper (lines 525-530). -/
def parseObjectId (id : String) : Except String String :=
  if isValidOidStr id && oidNormalize id == id then .ok (oidNormalize id) else .ok id

/- ### `getClient` under concurrent callers

`getClient` is `async`; its one internal suspension point on the
uncached path is `await client.connect()`, which runs *before* the
`this.clients.set(...)` write.  The machine below interleaves several
calls at that granularity: `.start` performs everything up to client
construction (config lookup, cache check, `new MongoClient`), and the
`.connecting` step performs the post-`connect` continuation (cache write,
return).  The eviction path's `await closeConnection` is folded into
`.start` — none of the studied interleavings depend on it.  Connects are
modelled as succeeding; `created` records every `new MongoClient`
construction as `(connectionId, handle)`. -/

inductive CallPhase where
  | start
  | connecting (h : Nat)
  | finished (r : Except String Nat)
deriving Repr

structure GetCall where
  cid : String
  ph : CallPhase
deriving Repr

structure ConcState where
  pool : PoolMap
  calls : List GetCall
  nextHandle : Nat
  created : List (String × Nat)
  now : Int
deriving Repr

/-- Run one scheduler step: advance call `i` by one atomic segment. -/
def stepCall (configs : List String) (σ : ConcState) (i : Nat) : ConcState :=
  match σ.calls[i]? with
  | none => σ
  | some c =>
    match c.ph with
    | .start =>
      if configs.contains c.cid then
        match mapGet σ.pool c.cid with
        | some e =>
          { σ with pool := mapSet σ.pool c.cid { e with lastUsed := σ.now }
                   calls := σ.calls.set i { c with ph := .finished (.ok e.client) }
                   now := σ.now + 1 }
        | none =>
          { σ with nextHandle := σ.nextHandle + 1
                   created := σ.created ++ [(c.cid, σ.nextHandle)]
                   calls := σ.calls.set i { c with ph := .connecting σ.nextHandle }
                   now := σ.now + 1 }
      else
        { σ with pool := mapDelete σ.pool c.cid
                 calls := σ.calls.set i
                   { c with ph := .finished (.error ("Connection not found: " ++ c.cid)) }
                 now := σ.now + 1 }
    | .connecting h =>
      { σ with pool := mapSet σ.pool c.cid { client := h, lastUsed := σ.now }
               calls := σ.calls.set i { c with ph := .finished (.ok h) }
               now := σ.now + 1 }
    | .finished _ => σ

/-- Run a schedule over concurrent `getClient(cid)` calls starting from an
empty pool. -/
def runCalls (configs : List String) (cids : List String) (sched : List Nat) : ConcState :=
  sched.foldl (stepCall configs)
    { pool := [], calls := cids.map (fun id => { cid := id, ph := .start })
      nextHandle := 0, created := [], now := 0 }

/- ### Shell command interpreter (`executeShell` in the server controller)

The recognizer is driven by anchored JavaScript regular expressions over
the trimmed command.  Each regex is embedded as an exact character-list
matcher implementing the engine's semantics on its pattern: `\w+` after
`db.` captures the maximal word run (forced by the following literal
dot), `(.*?)` is a lazy capture that cannot cross a line terminator,
`([\s\S]*)` is a greedy capture that can, and optional groups
`(?:...)?` backtrack to being skipped when taking them fails.  -/

/-- JavaScript `String.prototype.trim` whitespace (ASCII part). -/
def isJsWs (c : Char) : Bool :=
  c = ' ' || c = '\t' || c = '\n' || c = '\r' || c = Char.ofNat 11 || c = Char.ofNat 12

/-- `command.trim()`. -/
def trimChars (cs : List Char) : List Char :=
  ((cs.dropWhile isJsWs).reverse.dropWhile isJsWs).reverse

/-- Characters the regex metacharacter `.` does not match. -/
def dotNoMatch (c : Char) : Bool := c = '\n' || c = '\r'

/-- The regex class `\w`. -/
def isWordChar (c : Char) : Bool := c.isAlphanum || c = '_'

/-- The regex class `['"]`. -/
def isQuote (c : Char) : Bool := c = Char.ofNat 39 || c = '"'

/-- Strip an exact literal prefix. -/
def stripPfx : List Char → List Char → Option (List Char)
  | [], cs => some cs
  | _ :: _, [] => none
  | p :: ps, c :: cs => if p = c then stripPfx ps cs else none

/-- The `(\w+)\.` part of the namespaced shapes: the greedy `\w+` is
forced to the maximal word run by the literal dot that must follow it. -/
def dbWordDot (r : List Char) : Option (List Char × List Char) :=
  match r.span isWordChar with
  | (w, rest) =>
    if w = [] then none
    else
      match rest with
      | '.' :: rest' => some (w, rest')
      | _ => none

/-- Match `^db\.(\w+)\.`. -/
def splitDbCall (cs : List Char) : Option (List Char × List Char) :=
  (stripPfx "db.".data cs).bind dbWordDot

/-- Match `^db\.(\w+)\.<name>\(` and return the collection capture and the
remaining characters after the opening parenthesis. -/
def methodBody (name : String) (cs : List Char) : Option (List Char × List Char) :=
  (splitDbCall cs).bind fun a =>
    (stripPfx (name ++ "(").data a.2).map fun body => (a.1, body)

/-- Match `(.*?)\)$` against the rest of the input: the closing
parenthesis must be the final character and the lazy capture cannot cross
a line terminator. -/
def lazyCloseArg (body : List Char) : Option (List Char) :=
  match body.reverse with
  | ')' :: revMid => if revMid.any dotNoMatch then none else some revMid.reverse
  | _ => none

/-- Match `([\s\S]*)\)$`. -/
def greedyCloseArg (body : List Char) : Option (List Char) :=
  match body.reverse with
  | ')' :: revMid => some revMid.reverse
  | _ => none

/-- Match `([\s\S]*),([\s\S]*)\)$`: the first greedy capture runs to the
last comma, the second to the final parenthesis. -/
def twoArgSplit (body : List Char) : Option (List Char × List Char) :=
  match body.reverse with
  | ')' :: revMid =>
    match revMid.span (fun c => !(c = ',')) with
    | (revUpd, rest) =>
      match rest with
      | ',' :: revFil => some (revFil.reverse, revUpd.reverse)
      | _ => none
  | _ => none

/-- Match `['"](\w+)['"]\)$`. -/
def quotedWordArg (body : List Char) : Option (List Char) :=
  match body with
  | q :: rest =>
    if isQuote q then
      match rest.span isWordChar with
      | (w, rest') =>
        if w = [] then none
        else
          match rest' with
          | [q2, ')'] => if isQuote q2 then some w else none
          | _ => none
    else none
  | [] => none

/-- Match `['"](.+)['"]\)$`: the greedy `(.+)` runs to the quote that must
sit directly before the final parenthesis. -/
def quotedAnyArg (body : List Char) : Option (List Char) :=
  match body with
  | q :: rest =>
    if isQuote q then
      match rest.reverse with
      | ')' :: q2 :: revName =>
        if isQuote q2 && !(revName = []) && !(revName.any dotNoMatch) then
          some revName.reverse
        else none
      | _ => none
    else none
  | [] => none

/-- The optional `.limit(\d+)` / `.skip(\d+)` / `.sort(...)` clause
captures of the `find` regex. -/
structure FindClauses where
  limitStr : Option (List Char)
  skipStr : Option (List Char)
  sortStr : Option (List Char)
deriving DecidableEq, Repr

def takeDigits (cs : List Char) : List Char × List Char := cs.span Char.isDigit

/-- Match `(?:\.sort\((.*?)\))?$`. -/
def parseSortTail (cs : List Char) : Option (Option (List Char)) :=
  match cs with
  | [] => some none
  | _ =>
    match stripPfx ".sort(".data cs with
    | some r =>
      match lazyCloseArg r with
      | some mid => some (some mid)
      | none => none
    | none => none

/-- Match `(?:\.skip\((\d+)\))?` then the sort tail; if taking the group
fails the engine backtracks to skipping it. -/
def parseSkipTail (cs : List Char) : Option (Option (List Char) × Option (List Char)) :=
  (match stripPfx ".skip(".data cs with
   | some r =>
     match takeDigits r with
     | (d, r2) =>
       if d = [] then none
       else
         match r2 with
         | ')' :: r3 =>
           match parseSortTail r3 with
           | some so => some (some d, so)
           | none => none
         | _ => none
   | none => none)
  <|>
  (match parseSortTail cs with
   | some so => some (none, so)
   | none => none)

/-- Match `(?:\.limit\((\d+)\))?` then the skip/sort tail. -/
def parseLimitTail (cs : List Char) : Option FindClauses :=
  (match stripPfx ".limit(".data cs with
   | some r =>
     match takeDigits r with
     | (d, r2) =>
       if d = [] then none
       else
         match r2 with
         | ')' :: r3 =>
           match parseSkipTail r3 with
           | some (sk, so) => some ⟨some d, sk, so⟩
           | none => none
         | _ => none
   | none => none)
  <|>
  (match parseSkipTail cs with
   | some (sk, so) => some ⟨none, sk, so⟩
   | none => none)

/-- The captures of the `find` regex
`^db\.(\w+)\.find\((.*?)\)(?:\.limit\((\d+)\))?(?:\.skip\((\d+)\))?(?:\.sort\((.*?)\))?$`. -/
structure FindParts where
  coll : List Char
  filterStr : List Char
  clauses : FindClauses
deriving DecidableEq, Repr

/-- Lazy enumeration of the `(.*?)\)` split of the find argument: the
shortest filter whose continuation matches the optional clauses wins. -/
def findSplit (acc rest : List Char) : Option (List Char × FindClauses) :=
  match rest with
  | [] => none
  | c :: r =>
    if c = ')' then
      match parseLimitTail r with
      | some t => some (acc.reverse, t)
      | none => findSplit (c :: acc) r
    else if dotNoMatch c then none
    else findSplit (c :: acc) r

def matchFind (cs : List Char) : Option FindParts :=
  (methodBody "find" cs).bind fun a =>
    (findSplit [] a.2).map fun ft => ⟨a.1, ft.1, ft.2⟩

/-- `^db\.(\w+)\.<name>\((.*?)\)$`. -/
def matchLazyArg (name : String) (cs : List Char) : Option (List Char × List Char) :=
  (methodBody name cs).bind fun a => (lazyCloseArg a.2).map fun m => (a.1, m)

/-- `^db\.(\w+)\.<name>\(([\s\S]*)\)$`. -/
def matchGreedyArg (name : String) (cs : List Char) : Option (List Char × List Char) :=
  (methodBody name cs).bind fun a => (greedyCloseArg a.2).map fun m => (a.1, m)

/-- `^db\.(\w+)\.<name>\(([\s\S]*),([\s\S]*)\)$`. -/
def matchTwoArg (name : String) (cs : List Char) :
    Option (List Char × List Char × List Char) :=
  (methodBody name cs).bind fun a => (twoArgSplit a.2).map fun fu => (a.1, fu.1, fu.2)

/-- `\(\)$` after the method name. -/
def onlyCloseParen (body : List Char) : Option Unit :=
  match body with
  | [')'] => some ()
  | _ => none

/-- `^db\.(\w+)\.<name>\(\)$`. -/
def matchEmptyParens (name : String) (cs : List Char) : Option (List Char) :=
  (methodBody name cs).bind fun a => (onlyCloseParen a.2).map fun _ => a.1

/-- `^db\.(\w+)\.<name>\(['"](\w+)['"]\)$`. -/
def matchQuotedWord (name : String) (cs : List Char) : Option (List Char × List Char) :=
  (methodBody name cs).bind fun a => (quotedWordArg a.2).map fun m => (a.1, m)

/-- `^db\.(\w+)\.<name>\(['"](.+)['"]\)$`. -/
def matchQuotedAny (name : String) (cs : List Char) : Option (List Char × List Char) :=
  (methodBody name cs).bind fun a => (quotedAnyArg a.2).map fun m => (a.1, m)

/-- `\s+(\w+)$` of the `use` form (the `\s` class modelled by its ASCII
part). -/
def useTail (r : List Char) : Option (List Char) :=
  match r.span isJsWs with
  | (ws, r2) =>
    if ws = [] then none
    else
      match r2.span isWordChar with
      | (w, r3) =>
        if w = [] then none
        else
          match r3 with
          | [] => some w
          | _ => none

/-- `^use\s+(\w+)$`. -/
def matchUse (cs : List Char) : Option (List Char) :=
  (stripPfx "use".data cs).bind useTail

/-- `^db\.createCollection\(['"](\w+)['"]\)$`. -/
def matchCreateCollection (cs : List Char) : Option (List Char) :=
  (stripPfx "db.createCollection(".data cs).bind quotedWordArg

/-- `parseInt` on a nonempty digit capture. -/
def parseIntDigits (ds : List Char) : Nat :=
  ds.foldl (fun a c => a * 10 + (c.toNat - '0'.toNat)) 0

/-- `cursor.limit(n)` semantics of the driver: `limit(0)` means no limit. -/
def driverLimit (n : Nat) (l : List Json) : List Json :=
  if n = 0 then l else l.take n

/-- Abstract driver behaviour for one request: what each driver call the
interpreter can issue would return.  Driver calls are modelled as
succeeding; the claims settled here concern the interpreter's parsing
and argument handling, which run before any driver call. -/
structure Driver where
  listCollections : List String
  dbStats : Json
  databases : Json
  find : String → Json → List Json
  sortDocs : String → Json → List Json → List Json
  findOneRes : String → Json → Json
  countDocs : String → Json → Nat
  distinctVals : String → String → List Json
  indexes : String → List Json
  collStats : String → Json
  insertOneRes : String → Json → Bool × Json
  insertManyRes : String → Json → Bool × Nat × Json
  updateOneRes : String → Json → Json → Bool × Nat × Nat
  updateManyRes : String → Json → Json → Bool × Nat × Nat
  deleteOneRes : String → Json → Bool × Nat
  deleteManyRes : String → Json → Bool × Nat
  dropCollRes : String → Bool
  aggregateRes : String → Json → List Json
  createIndexRes : String → Json → String
  dropIndexRes : String → String → Json
  runCommand : Json → Json

/-- What `executeShell` hands to `res.json` / `res.status(400).json`. -/
inductive ShellResult where
  | badRequest (error : String)
  | ok (v : Json)
deriving DecidableEq, Repr

def errObj (m : String) : Json := .obj [("error", .str m)]

/-- The filter handling shared by the `find`/`findOne`/`countDocuments`/
`count` branches: `let filter = {}` then, when the capture is truthy and
non-blank, `try { filter = JSON.parse(filterStr) } catch (e) {}` — a
parse failure is swallowed and the empty filter is used. -/
def lazyFilterOf (jp : String → Except String Json) (fs : List Char) : Json :=
  if !(trimChars fs = []) then
    match jp (String.mk fs) with
    | .ok j => j
    | .error _ => Json.obj []
  else Json.obj []

/-- The `find` branch cursor pipeline before the final `limit`: filter,
optional `.sort` (with its own swallowed parse), optional `.skip`. -/
def findPreLimit (d : Driver) (jp : String → Except String Json) (p : FindParts) :
    List Json :=
  let coll := String.mk p.coll
  let docs := d.find coll (lazyFilterOf jp p.filterStr)
  let docs :=
    match p.clauses.sortStr with
    | some ss =>
      if !(ss = []) then
        match jp (String.mk ss) with
        | .ok sj => d.sortDocs coll sj docs
        | .error _ => docs
      else docs
    | none => docs
  match p.clauses.skipStr with
  | some ks => docs.drop (parseIntDigits ks)
  | none => docs

/-- The `find` branch: `const limit = limitStr ? parseInt(limitStr) : 20`
then `cursor.limit(limit)`. -/
def findBranch (d : Driver) (jp : String → Except String Json) (p : FindParts) :
    ShellResult :=
  let lim :=
    match p.clauses.limitStr with
    | some ls => parseIntDigits ls
    | none => 20
  .ok (.arr (driverLimit lim (findPreLimit d jp p)))

/-- The `Unknown command` data result (final `res.json` of `executeShell`). -/
def unknownMsg : String :=
  "Unknown command. Supported commands: db.collection.find(), db.collection.findOne(), db.collection.insert(), db.collection.insertOne(), db.collection.insertMany(), db.collection.updateOne(), db.collection.updateMany(), db.collection.deleteOne(), db.collection.deleteMany(), db.collection.aggregate(), db.collection.countDocuments(), db.collection.distinct(), db.collection.getIndexes(), db.collection.createIndex(), db.collection.dropIndex(), db.collection.drop(), db.collection.stats(), db.getCollectionNames(), db.stats(), db.createCollection(), db.dropDatabase(), show dbs, show collections, use <database>, or JSON commands like \x7b ping: 1 \x7d"

/-- Branch bodies of `executeShell`, one definition per
`if (...) return res.json(...)` block of the source. -/
def findOneBranch (d : Driver) (jp : String → Except String Json)
    (a : List Char × List Char) : ShellResult :=
  .ok (d.findOneRes (String.mk a.1) (lazyFilterOf jp a.2))

def countBranch (d : Driver) (jp : String → Except String Json)
    (a : List Char × List Char) : ShellResult :=
  .ok (.obj [("count", .num (Int.ofNat (d.countDocs (String.mk a.1) (lazyFilterOf jp a.2))))])

def distinctBranch (d : Driver) (a : List Char × List Char) : ShellResult :=
  .ok (.arr (d.distinctVals (String.mk a.1) (String.mk a.2)))

def getIndexesBranch (d : Driver) (w : List Char) : ShellResult :=
  .ok (.arr (d.indexes (String.mk w)))

def collStatsBranch (d : Driver) (w : List Char) : ShellResult :=
  .ok (d.collStats (String.mk w))

def insertOneResult (r : Bool × Json) : Json :=
  .obj [("acknowledged", .bool r.1), ("insertedId", r.2)]

def insertManyResult (r : Bool × Nat × Json) : Json :=
  .obj [("acknowledged", .bool r.1), ("insertedCount", .num (Int.ofNat r.2.1)),
    ("insertedIds", r.2.2)]

def insertOneBranch (d : Driver) (jp : String → Except String Json)
    (a : List Char × List Char) : ShellResult :=
  match jp (String.mk a.2) with
  | .ok doc => .ok (insertOneResult (d.insertOneRes (String.mk a.1) doc))
  | .error m => .ok (errObj ("Invalid document JSON: " ++ m))

def insertBranch (d : Driver) (jp : String → Except String Json)
    (a : List Char × List Char) : ShellResult :=
  match jp (String.mk a.2) with
  | .ok doc =>
    match doc with
    | .arr xs => .ok (insertManyResult (d.insertManyRes (String.mk a.1) (.arr xs)))
    | _ => .ok (insertOneResult (d.insertOneRes (String.mk a.1) doc))
  | .error m => .ok (errObj ("Invalid document JSON: " ++ m))

def insertManyBranch (d : Driver) (jp : String → Except String Json)
    (a : List Char × List Char) : ShellResult :=
  match jp (String.mk a.2) with
  | .ok docs => .ok (insertManyResult (d.insertManyRes (String.mk a.1) docs))
  | .error m => .ok (errObj ("Invalid documents JSON: " ++ m))

def updateResult (r : Bool × Nat × Nat) : Json :=
  .obj [("acknowledged", .bool r.1), ("matchedCount", .num (Int.ofNat r.2.1)),
    ("modifiedCount", .num (Int.ofNat r.2.2))]

def updateOneBranch (d : Driver) (jp : String → Except String Json)
    (a : List Char × List Char × List Char) : ShellResult :=
  match jp (String.mk (trimChars a.2.1)) with
  | .error m => .ok (errObj ("Invalid JSON: " ++ m))
  | .ok fj =>
    match jp (String.mk (trimChars a.2.2)) with
    | .error m => .ok (errObj ("Invalid JSON: " ++ m))
    | .ok uj => .ok (updateResult (d.updateOneRes (String.mk a.1) fj uj))

def updateManyBranch (d : Driver) (jp : String → Except String Json)
    (a : List Char × List Char × List Char) : ShellResult :=
  match jp (String.mk (trimChars a.2.1)) with
  | .error m => .ok (errObj ("Invalid JSON: " ++ m))
  | .ok fj =>
    match jp (String.mk (trimChars a.2.2)) with
    | .error m => .ok (errObj ("Invalid JSON: " ++ m))
    | .ok uj => .ok (updateResult (d.updateManyRes (String.mk a.1) fj uj))

def deleteResult (r : Bool × Nat) : Json :=
  .obj [("acknowledged", .bool r.1), ("deletedCount", .num (Int.ofNat r.2))]

def deleteOneBranch (d : Driver) (jp : String → Except String Json)
    (a : List Char × List Char) : ShellResult :=
  match jp (String.mk (trimChars a.2)) with
  | .ok fj => .ok (deleteResult (d.deleteOneRes (String.mk a.1) fj))
  | .error m => .ok (errObj ("Invalid filter JSON: " ++ m))

def deleteManyBranch (d : Driver) (jp : String → Except String Json)
    (a : List Char × List Char) : ShellResult :=
  match jp (String.mk (trimChars a.2)) with
  | .ok fj => .ok (deleteResult (d.deleteManyRes (String.mk a.1) fj))
  | .error m => .ok (errObj ("Invalid filter JSON: " ++ m))

def dropBranch (d : Driver) (w : List Char) : ShellResult :=
  .ok (.obj [("dropped", .bool (d.dropCollRes (String.mk w)))])

def aggregateBranch (d : Driver) (jp : String → Except String Json)
    (a : List Char × List Char) : ShellResult :=
  match jp (String.mk a.2) with
  | .ok pj => .ok (.arr (d.aggregateRes (String.mk a.1) pj))
  | .error m => .ok (errObj ("Invalid pipeline JSON: " ++ m))

def createIndexBranch (d : Driver) (jp : String → Except String Json)
    (a : List Char × List Char) : ShellResult :=
  match jp (String.mk a.2) with
  | .ok kj => .ok (.obj [("indexName", .str (d.createIndexRes (String.mk a.1) kj))])
  | .error m => .ok (errObj ("Invalid keys JSON: " ++ m))

def dropIndexBranch (d : Driver) (a : List Char × List Char) : ShellResult :=
  .ok (d.dropIndexRes (String.mk a.1) (String.mk a.2))

def useBranch (w : List Char) : ShellResult :=
  .ok (.obj [("message", .str ("switched to db " ++ String.mk w)),
    ("database", .str (String.mk w))])

def createCollectionBranch (w : List Char) : ShellResult :=
  .ok (.obj [("created", .str (String.mk w))])

def rawCommandBranch (d : Driver) (jp : String → Except String Json)
    (t : List Char) : ShellResult :=
  match jp (String.mk t) with
  | .ok c => .ok (d.runCommand c)
  | .error m => .ok (errObj ("Invalid JSON command: " ++ m))

/-- The ordered first-match-wins recognizer of `executeShell`, split into
four groups of alternatives (source order is preserved across the
concatenation).  Each alternative is one `if (...) return res.json(...)`
block of the source. -/
def dispatchA (d : Driver) (jp : String → Except String Json) (t : List Char) :
    Option ShellResult :=
  (if t = "db.getCollectionNames()".data then
    some (.ok (.arr (d.listCollections.map Json.str))) else none)
  <|>
  (if t = "db.stats()".data then some (.ok d.dbStats) else none)
  <|>
  (matchFind t).map (findBranch d jp)
  <|>
  (matchLazyArg "findOne" t).map (findOneBranch d jp)
  <|>
  (matchLazyArg "countDocuments" t).map (countBranch d jp)
  <|>
  (matchLazyArg "count" t).map (countBranch d jp)

def dispatchB (d : Driver) (jp : String → Except String Json) (t : List Char) :
    Option ShellResult :=
  (matchQuotedWord "distinct" t).map (distinctBranch d)
  <|>
  (matchEmptyParens "getIndexes" t).map (getIndexesBranch d)
  <|>
  (matchEmptyParens "stats" t).map (collStatsBranch d)
  <|>
  (matchGreedyArg "insertOne" t).map (insertOneBranch d jp)
  <|>
  (matchGreedyArg "insert" t).map (insertBranch d jp)
  <|>
  (matchGreedyArg "insertMany" t).map (insertManyBranch d jp)

def dispatchC (d : Driver) (jp : String → Except String Json) (t : List Char) :
    Option ShellResult :=
  (matchTwoArg "updateOne" t).map (updateOneBranch d jp)
  <|>
  (matchTwoArg "updateMany" t).map (updateManyBranch d jp)
  <|>
  (matchGreedyArg "deleteOne" t).map (deleteOneBranch d jp)
  <|>
  ((matchGreedyArg "deleteMany" t) <|> (matchGreedyArg "remove" t)).map (deleteManyBranch d jp)
  <|>
  (matchEmptyParens "drop" t).map (dropBranch d)
  <|>
  (matchGreedyArg "aggregate" t).map (aggregateBranch d jp)

def dispatchD (d : Driver) (jp : String → Except String Json) (t : List Char) :
    Option ShellResult :=
  (matchGreedyArg "createIndex" t).map (createIndexBranch d jp)
  <|>
  (matchQuotedAny "dropIndex" t).map (dropIndexBranch d)
  <|>
  (matchUse t).map useBranch
  <|>
  (matchCreateCollection t).map createCollectionBranch
  <|>
  (if t = "db.dropDatabase()".data then some (.ok (.obj [("dropped", .bool true)])) else none)
  <|>
  (if t = "show dbs".data || t = "show databases".data then some (.ok d.databases) else none)
  <|>
  (if t = "show collections".data then
    some (.ok (.arr (d.listCollections.map Json.str))) else none)
  <|>
  (if t.head? = some '\x7b' then some (rawCommandBranch d jp t) else none)

def dispatchChain (d : Driver) (jp : String → Except String Json) (t : List Char) :
    Option ShellResult :=
  dispatchA d jp t <|> dispatchB d jp t <|> dispatchC d jp t <|> dispatchD d jp t

/-- Embedding of `executeShell`: the `!command` bad-request guard, the
`command.trim()`, the ordered recognizer, and the final unknown-command
data result.  `jp` models the `JSON.parse` builtin. -/
def executeShell (d : Driver) (jp : String → Except String Json) (command : String) :
    ShellResult :=
  if command = "" then .badRequest "Command is required"
  else (dispatchChain d jp (trimChars command.data)).getD (.ok (errObj unknownMsg))

/-- A concrete driver oracle used by witnesses: every collection is empty
and every driver call returns a fixed benign result. -/
def drvEx : Driver where
  listCollections := []
  dbStats := .null
  databases := .null
  find := fun _ _ => []
  sortDocs := fun _ _ l => l
  findOneRes := fun _ _ => .null
  countDocs := fun _ _ => 0
  distinctVals := fun _ _ => []
  indexes := fun _ => []
  collStats := fun _ => .null
  insertOneRes := fun _ _ => (true, .null)
  insertManyRes := fun _ _ => (true, 0, .null)
  updateOneRes := fun _ _ _ => (true, 0, 0)
  updateManyRes := fun _ _ _ => (true, 0, 0)
  deleteOneRes := fun _ _ => (true, 0)
  deleteManyRes := fun _ _ => (true, 0)
  dropCollRes := fun _ => true
  aggregateRes := fun _ _ => []
  createIndexRes := fun _ _ => "idx"
  dropIndexRes := fun _ _ => .null
  runCommand := fun _ => .null

/-- A concrete `JSON.parse` model used by witnesses: every input fails to
parse with a fixed message. -/
def jpFail : String → Except String Json := fun _ => .error "Unexpected token"

/- ### Codec lemmas -/

/-- Decoding succeeds on every element of a list whose elements all decode
(pointwise hypothesis), mirroring `convList`. -/
theorem convList_ok {xs : List Json}
    (ih : ∀ x ∈ xs, hasBadOid x = false → ∃ b, convertExtendedJson x = .ok b)
    (h : hasBadList xs = false) : ∃ ys, convList xs = .ok ys := by
  induction xs with
  | nil => exact ⟨[], rfl⟩
  | cons x r tail_ih =>
    simp only [hasBadList, Bool.or_eq_false_iff] at h
    obtain ⟨b, hb⟩ := ih x (List.mem_cons_self x r) h.1
    obtain ⟨ys, hys⟩ := tail_ih (fun z hz => ih z (List.mem_cons_of_mem x hz)) h.2
    exact ⟨b :: ys, by simp [convList, hb, hys]⟩

theorem convFields_ok {fs : List (String × Json)}
    (ih : ∀ p ∈ fs, hasBadOid p.2 = false → ∃ b, convertExtendedJson p.2 = .ok b)
    (h : hasBadFields fs = false) : ∃ gs, convFields fs = .ok gs := by
  induction fs with
  | nil => exact ⟨[], rfl⟩
  | cons p r tail_ih =>
    obtain ⟨k, v⟩ := p
    simp only [hasBadFields, Bool.or_eq_false_iff] at h
    obtain ⟨gs, hgs⟩ := tail_ih (fun z hz => ih z (List.mem_cons_of_mem _ hz)) h.2
    cases hio : idOidOf k v with
    | some s => exact ⟨(k, .oid (oidNormalize s)) :: gs, by simp [convFields, hio, hgs]⟩
    | none =>
      have hv : hasBadOid v = false := by
        have := h.1
        rw [hio] at this
        exact this
      obtain ⟨b, hb⟩ := ih (k, v) (List.mem_cons_self _ r) hv
      exact ⟨(k, b) :: gs, by simp [convFields, hio, hb, hgs]⟩

/-- Decode is total away from bad `$oid` wrappers. -/
theorem convertExtendedJson_total :
    ∀ j : Json, hasBadOid j = false → ∃ b, convertExtendedJson j = .ok b := by
  intro j
  induction j using json_size_ind with
  | h j ih =>
    intro h
    cases j with
    | null => exact ⟨.null, rfl⟩
    | bool b => exact ⟨.bool b, rfl⟩
    | num n => exact ⟨.num n, rfl⟩
    | str s => exact ⟨.str s, rfl⟩
    | arr xs =>
      simp only [hasBadOid] at h
      obtain ⟨ys, hys⟩ :=
        convList_ok (fun x hx => ih x (sizeOf_lt_of_mem_arr hx)) h
      exact ⟨.arr ys, by simp [convertExtendedJson, hys]⟩
    | obj fs =>
      simp only [hasBadOid] at h
      cases hO : oidTruthyStr fs with
      | some s =>
        rw [hO] at h
        simp only [Bool.not_eq_false'] at h
        exact ⟨.oid (oidNormalize s), by simp [convertExtendedJson, hO, h]⟩
      | none =>
        rw [hO] at h
        cases hD : dateTruthy fs with
        | some v => exact ⟨.date (jsNewDate v), by simp [convertExtendedJson, hO, hD]⟩
        | none =>
          rw [hD] at h
          obtain ⟨gs, hgs⟩ :=
            convFields_ok
              (fun p hp => ih p.2 (by obtain ⟨k, v⟩ := p; exact sizeOf_lt_of_mem_obj hp)) h
          exact ⟨.obj gs, by simp [convertExtendedJson, hO, hD, hgs]⟩

theorem convDocList {xs : List Json}
    (ih : ∀ x ∈ xs, canonicalEJ x = true →
      ∃ b, convertExtendedJson x = .ok b ∧ documentToJson b = .ok x)
    (h : canonList xs = true) :
    ∃ ys, convList xs = .ok ys ∧ docList ys = .ok xs := by
  induction xs with
  | nil => exact ⟨[], rfl, rfl⟩
  | cons x r tail_ih =>
    simp only [canonList, Bool.and_eq_true] at h
    obtain ⟨b, hb, hb'⟩ := ih x (List.mem_cons_self x r) h.1
    obtain ⟨ys, hys, hys'⟩ := tail_ih (fun z hz => ih z (List.mem_cons_of_mem x hz)) h.2
    exact ⟨b :: ys, by simp [convList, hb, hys], by simp [docList, hb', hys']⟩

theorem convDocFields {fs : List (String × Json)}
    (ih : ∀ p ∈ fs, canonicalEJ p.2 = true →
      ∃ b, convertExtendedJson p.2 = .ok b ∧ documentToJson b = .ok p.2)
    (hno : noIdFields fs = true) (h : canonFields fs = true) :
    ∃ gs, convFields fs = .ok gs ∧ docFields gs = .ok fs := by
  induction fs with
  | nil => exact ⟨[], rfl, rfl⟩
  | cons p r tail_ih =>
    obtain ⟨k, v⟩ := p
    simp only [noIdFields, List.all_cons, Bool.and_eq_true] at hno
    simp only [canonFields, Bool.and_eq_true] at h
    have hio : idOidOf k v = none := by
      have := hno.1
      cases hx : idOidOf k v with
      | none => rfl
      | some s => rw [hx] at this; simp at this
    obtain ⟨b, hb, hb'⟩ := ih (k, v) (List.mem_cons_self _ r) h.1
    obtain ⟨gs, hgs, hgs'⟩ :=
      tail_ih (fun z hz => ih z (List.mem_cons_of_mem _ hz))
        (by simp only [noIdFields]; exact hno.2) h.2
    exact ⟨(k, b) :: gs, by simp [convFields, hio, hb, hgs], by simp [docFields, hb', hgs']⟩

/-- On canonical trees, `documentToJson` is a left inverse of
`convertExtendedJson`. -/
theorem roundtrip_canonical :
    ∀ j : Json, canonicalEJ j = true →
      ∃ b, convertExtendedJson j = .ok b ∧ documentToJson b = .ok j := by
  intro j
  induction j using json_size_ind with
  | h j ih =>
    intro h
    cases j with
    | null => exact ⟨.null, rfl, rfl⟩
    | bool b => exact ⟨.bool b, rfl, rfl⟩
    | num n => exact ⟨.num n, rfl, rfl⟩
    | str s => exact ⟨.str s, rfl, rfl⟩
    | arr xs =>
      simp only [canonicalEJ] at h
      obtain ⟨ys, hys, hys'⟩ :=
        convDocList (fun x hx => ih x (sizeOf_lt_of_mem_arr hx)) h
      exact ⟨.arr ys, by simp [convertExtendedJson, hys], by simp [documentToJson, hys']⟩
    | obj fs =>
      simp only [canonicalEJ] at h
      cases hO : oidTruthyStr fs with
      | some s =>
        rw [hO] at h
        simp only [Bool.and_eq_true, beq_iff_eq] at h
        obtain ⟨⟨hfs, hval⟩, hlow⟩ := h
        refine ⟨.oid (oidNormalize s), by simp [convertExtendedJson, hO, hval], ?_⟩
        simp only [documentToJson, hlow, hfs]
      | none =>
        rw [hO] at h
        cases hD : dateTruthy fs with
        | some v =>
          rw [hD] at h
          cases v with
          | str s =>
            simp only [Bool.and_eq_true, beq_iff_eq] at h
            obtain ⟨hfs, hcan⟩ := h
            cases hP : parseDateMs s with
            | none => rw [hP] at hcan; exact absurd hcan (by simp)
            | some t =>
              rw [hP] at hcan
              simp only [beq_iff_eq] at hcan
              refine ⟨.date (some t), ?_, ?_⟩
              · simp [convertExtendedJson, hO, hD, jsNewDate, hP]
              · simp only [documentToJson, hcan, hfs]
          | null => exact absurd h (by simp)
          | bool b => exact absurd h (by simp)
          | num n => exact absurd h (by simp)
          | arr xs => exact absurd h (by simp)
          | obj gs => exact absurd h (by simp)
        | none =>
          rw [hD] at h
          simp only [Bool.and_eq_true] at h
          obtain ⟨gs, hgs, hgs'⟩ :=
            convDocFields
              (fun p hp => ih p.2 (by obtain ⟨k, v⟩ := p; exact sizeOf_lt_of_mem_obj hp))
              h.1 h.2
          exact ⟨.obj gs, by simp [convertExtendedJson, hO, hD, hgs],
            by simp [documentToJson, hgs']⟩

/- ### Recognizer order lemmas: which branch a matched command reaches -/

theorem stripPfx_eq_some : ∀ (p cs r : List Char), stripPfx p cs = some r ↔ cs = p ++ r := by
  intro p
  induction p with
  | nil => intro cs r; simp [stripPfx]
  | cons x ps ih =>
    intro cs r
    cases cs with
    | nil => simp [stripPfx]
    | cons c cs =>
      by_cases hx : x = c
      · subst hx
        simp [stripPfx, ih]
      · simp [stripPfx, hx, Ne.symm hx]

theorem stripPfx_append_none : ∀ (p q rest : List Char),
    List.isPrefixOf p q = false → List.isPrefixOf q p = false →
    stripPfx p (q ++ rest) = none := by
  intro p
  induction p with
  | nil => intro q rest h1 _; simp [List.isPrefixOf] at h1
  | cons x ps ih =>
    intro q rest h1 h2
    cases q with
    | nil => simp [List.isPrefixOf] at h2
    | cons c cs =>
      by_cases hx : x = c
      · subst hx
        simp only [List.isPrefixOf, Bool.and_eq_false_iff, beq_self_eq_true] at h1 h2
        simp only [List.cons_append, stripPfx, if_pos rfl]
        exact ih cs rest (by tauto) (by tauto)
      · simp [stripPfx, hx]

theorem methodBody_splitDbCall {n : String} {t w body}
    (h : methodBody n t = some (w, body)) :
    splitDbCall t = some (w, (n ++ "(").data ++ body) := by
  simp only [methodBody, Option.bind_eq_some, Option.map_eq_some'] at h
  obtain ⟨⟨w0, r⟩, hsp, body0, hst, heq⟩ := h
  dsimp only at hst heq
  obtain ⟨rfl, rfl⟩ : w0 = w ∧ body0 = body := by
    constructor <;> cases heq <;> rfl
  rw [hsp, (stripPfx_eq_some _ _ _).1 hst]

/-- Two method shapes cannot both match: the collection capture is the
same maximal word run, and no two method names continue it compatibly. -/
theorem methodBody_none_of_other {n n' : String} {t w body}
    (h : methodBody n t = some (w, body))
    (h1 : List.isPrefixOf ((n' ++ "(").data) ((n ++ "(").data) = false)
    (h2 : List.isPrefixOf ((n ++ "(").data) ((n' ++ "(").data) = false) :
    methodBody n' t = none := by
  have hsp := methodBody_splitDbCall h
  simp only [methodBody, hsp, Option.some_bind]
  rw [stripPfx_append_none _ _ _ h1 h2]
  rfl

theorem splitDbCall_shape {t : List Char} {x} (h : splitDbCall t = some x) :
    ∃ u, t = 'd' :: 'b' :: '.' :: u := by
  simp only [splitDbCall, Option.bind_eq_some] at h
  obtain ⟨r, hst, _⟩ := h
  exact ⟨r, by simpa using (stripPfx_eq_some _ _ _).1 hst⟩

theorem matchFind_none {t} (h : methodBody "find" t = none) : matchFind t = none := by
  simp [matchFind, h]

theorem matchLazyArg_none {n t} (h : methodBody n t = none) : matchLazyArg n t = none := by
  simp [matchLazyArg, h]

theorem matchGreedyArg_none {n t} (h : methodBody n t = none) : matchGreedyArg n t = none := by
  simp [matchGreedyArg, h]

theorem matchTwoArg_none {n t} (h : methodBody n t = none) : matchTwoArg n t = none := by
  simp [matchTwoArg, h]

theorem matchEmptyParens_none {n t} (h : methodBody n t = none) :
    matchEmptyParens n t = none := by
  simp [matchEmptyParens, h]

theorem matchQuotedWord_none {n t} (h : methodBody n t = none) :
    matchQuotedWord n t = none := by
  simp [matchQuotedWord, h]

theorem matchQuotedAny_none {n t} (h : methodBody n t = none) :
    matchQuotedAny n t = none := by
  simp [matchQuotedAny, h]

/-- A command that reaches a method shape is none of the exact-string
forms (their own `splitDbCall` fails). -/
theorem ne_of_splitDbCall {t : List Char} {x} (h : splitDbCall t = some x)
    (lit : List Char) (hlit : splitDbCall lit = none) : t ≠ lit := by
  intro he
  rw [he, hlit] at h
  exact absurd h (by simp)

theorem mb_of_bind {n : String} {t : List Char} {β : Type} {f : List Char × List Char → Option β}
    {b : β} (h : (methodBody n t).bind f = some b) :
    ∃ w body, methodBody n t = some (w, body) := by
  rcases hx : methodBody n t with _ | ⟨w, body⟩
  · rw [hx] at h; exact absurd h (by simp)
  · exact ⟨w, body, rfl⟩

theorem methodBody_none_of_split {n : String} {t} (h : splitDbCall t = none) :
    methodBody n t = none := by
  simp [methodBody, h]

theorem dispatchA_none {d jp t} (h1 : t ≠ "db.getCollectionNames()".data)
    (h2 : t ≠ "db.stats()".data) (h3 : matchFind t = none)
    (h4 : matchLazyArg "findOne" t = none) (h5 : matchLazyArg "countDocuments" t = none)
    (h6 : matchLazyArg "count" t = none) : dispatchA d jp t = none := by
  simp [dispatchA, if_neg h1, if_neg h2, h3, h4, h5, h6]

theorem dispatchB_none {d jp t} (h1 : matchQuotedWord "distinct" t = none)
    (h2 : matchEmptyParens "getIndexes" t = none) (h3 : matchEmptyParens "stats" t = none)
    (h4 : matchGreedyArg "insertOne" t = none) (h5 : matchGreedyArg "insert" t = none)
    (h6 : matchGreedyArg "insertMany" t = none) : dispatchB d jp t = none := by
  simp [dispatchB, h1, h2, h3, h4, h5, h6]

theorem dispatchC_none {d jp t} (h1 : matchTwoArg "updateOne" t = none)
    (h2 : matchTwoArg "updateMany" t = none) (h3 : matchGreedyArg "deleteOne" t = none)
    (h4 : matchGreedyArg "deleteMany" t = none) (h5 : matchGreedyArg "remove" t = none)
    (h6 : matchEmptyParens "drop" t = none) (h7 : matchGreedyArg "aggregate" t = none) :
    dispatchC d jp t = none := by
  simp [dispatchC, h1, h2, h3, h4, h5, h6, h7]

/-- A matched `find` command reaches the `find` branch. -/
theorem dc_find {d jp t p} (h : matchFind t = some p) :
    dispatchChain d jp t = some (findBranch d jp p) := by
  have h' := h
  unfold matchFind at h'
  obtain ⟨w, body, hmb⟩ := mb_of_bind h'
  have hsp := methodBody_splitDbCall hmb
  have hne1 := ne_of_splitDbCall hsp "db.getCollectionNames()".data (by decide)
  have hne2 := ne_of_splitDbCall hsp "db.stats()".data (by decide)
  simp [dispatchChain, dispatchA, if_neg hne1, if_neg hne2, h]

/-- A matched `findOne` command reaches the `findOne` branch. -/
theorem dc_findOne {d jp t a} (h : matchLazyArg "findOne" t = some a) :
    dispatchChain d jp t = some (findOneBranch d jp a) := by
  have h' := h
  unfold matchLazyArg at h'
  obtain ⟨w, body, hmb⟩ := mb_of_bind h'
  have hsp := methodBody_splitDbCall hmb
  have hne1 := ne_of_splitDbCall hsp "db.getCollectionNames()".data (by decide)
  have hne2 := ne_of_splitDbCall hsp "db.stats()".data (by decide)
  have hf := matchFind_none (methodBody_none_of_other hmb (by decide) (by decide))
  simp [dispatchChain, dispatchA, if_neg hne1, if_neg hne2, hf, h]

/-- A matched `countDocuments` command reaches the count branch. -/
theorem dc_countDocuments {d jp t a} (h : matchLazyArg "countDocuments" t = some a) :
    dispatchChain d jp t = some (countBranch d jp a) := by
  have h' := h
  unfold matchLazyArg at h'
  obtain ⟨w, body, hmb⟩ := mb_of_bind h'
  have hsp := methodBody_splitDbCall hmb
  have hne1 := ne_of_splitDbCall hsp "db.getCollectionNames()".data (by decide)
  have hne2 := ne_of_splitDbCall hsp "db.stats()".data (by decide)
  have hf := matchFind_none (methodBody_none_of_other hmb (by decide) (by decide))
  have hfo := matchLazyArg_none (n := "findOne")
    (methodBody_none_of_other hmb (by decide) (by decide))
  simp [dispatchChain, dispatchA, if_neg hne1, if_neg hne2, hf, hfo, h]

/-- A matched `count` command reaches the count branch. -/
theorem dc_count {d jp t a} (h : matchLazyArg "count" t = some a) :
    dispatchChain d jp t = some (countBranch d jp a) := by
  have h' := h
  unfold matchLazyArg at h'
  obtain ⟨w, body, hmb⟩ := mb_of_bind h'
  have hsp := methodBody_splitDbCall hmb
  have hne1 := ne_of_splitDbCall hsp "db.getCollectionNames()".data (by decide)
  have hne2 := ne_of_splitDbCall hsp "db.stats()".data (by decide)
  have hf := matchFind_none (methodBody_none_of_other hmb (by decide) (by decide))
  have hfo := matchLazyArg_none (n := "findOne")
    (methodBody_none_of_other hmb (by decide) (by decide))
  have hcd := matchLazyArg_none (n := "countDocuments")
    (methodBody_none_of_other hmb (by decide) (by decide))
  simp [dispatchChain, dispatchA, if_neg hne1, if_neg hne2, hf, hfo, hcd, h]

/-- A matched `insertOne` command reaches the `insertOne` branch. -/
theorem dc_insertOne {d jp t a} (h : matchGreedyArg "insertOne" t = some a) :
    dispatchChain d jp t = some (insertOneBranch d jp a) := by
  have h' := h
  unfold matchGreedyArg at h'
  obtain ⟨w, body, hmb⟩ := mb_of_bind h'
  have hsp := methodBody_splitDbCall hmb
  have hA := @dispatchA_none d jp t
    (ne_of_splitDbCall hsp _ (by decide)) (ne_of_splitDbCall hsp _ (by decide))
    (matchFind_none (methodBody_none_of_other hmb (by decide) (by decide)))
    (matchLazyArg_none (methodBody_none_of_other hmb (by decide) (by decide)))
    (matchLazyArg_none (methodBody_none_of_other hmb (by decide) (by decide)))
    (matchLazyArg_none (methodBody_none_of_other hmb (by decide) (by decide)))
  have hq := matchQuotedWord_none (n := "distinct")
    (methodBody_none_of_other hmb (by decide) (by decide))
  have hg := matchEmptyParens_none (n := "getIndexes")
    (methodBody_none_of_other hmb (by decide) (by decide))
  have hs := matchEmptyParens_none (n := "stats")
    (methodBody_none_of_other hmb (by decide) (by decide))
  simp [dispatchChain, hA, dispatchB, hq, hg, hs, h]

/-- A matched legacy `insert` command reaches the `insert` branch. -/
theorem dc_insert {d jp t a} (h : matchGreedyArg "insert" t = some a) :
    dispatchChain d jp t = some (insertBranch d jp a) := by
  have h' := h
  unfold matchGreedyArg at h'
  obtain ⟨w, body, hmb⟩ := mb_of_bind h'
  have hsp := methodBody_splitDbCall hmb
  have hA := @dispatchA_none d jp t
    (ne_of_splitDbCall hsp _ (by decide)) (ne_of_splitDbCall hsp _ (by decide))
    (matchFind_none (methodBody_none_of_other hmb (by decide) (by decide)))
    (matchLazyArg_none (methodBody_none_of_other hmb (by decide) (by decide)))
    (matchLazyArg_none (methodBody_none_of_other hmb (by decide) (by decide)))
    (matchLazyArg_none (methodBody_none_of_other hmb (by decide) (by decide)))
  have hq := matchQuotedWord_none (n := "distinct")
    (methodBody_none_of_other hmb (by decide) (by decide))
  have hg := matchEmptyParens_none (n := "getIndexes")
    (methodBody_none_of_other hmb (by decide) (by decide))
  have hs := matchEmptyParens_none (n := "stats")
    (methodBody_none_of_other hmb (by decide) (by decide))
  have hio := matchGreedyArg_none (n := "insertOne")
    (methodBody_none_of_other hmb (by decide) (by decide))
  simp [dispatchChain, hA, dispatchB, hq, hg, hs, hio, h]

/-- A matched `insertMany` command reaches the `insertMany` branch. -/
theorem dc_insertMany {d jp t a} (h : matchGreedyArg "insertMany" t = some a) :
    dispatchChain d jp t = some (insertManyBranch d jp a) := by
  have h' := h
  unfold matchGreedyArg at h'
  obtain ⟨w, body, hmb⟩ := mb_of_bind h'
  have hsp := methodBody_splitDbCall hmb
  have hA := @dispatchA_none d jp t
    (ne_of_splitDbCall hsp _ (by decide)) (ne_of_splitDbCall hsp _ (by decide))
    (matchFind_none (methodBody_none_of_other hmb (by decide) (by decide)))
    (matchLazyArg_none (methodBody_none_of_other hmb (by decide) (by decide)))
    (matchLazyArg_none (methodBody_none_of_other hmb (by decide) (by decide)))
    (matchLazyArg_none (methodBody_none_of_other hmb (by decide) (by decide)))
  have hq := matchQuotedWord_none (n := "distinct")
    (methodBody_none_of_other hmb (by decide) (by decide))
  have hg := matchEmptyParens_none (n := "getIndexes")
    (methodBody_none_of_other hmb (by decide) (by decide))
  have hs := matchEmptyParens_none (n := "stats")
    (methodBody_none_of_other hmb (by decide) (by decide))
  have hio := matchGreedyArg_none (n := "insertOne")
    (methodBody_none_of_other hmb (by decide) (by decide))
  have hin := matchGreedyArg_none (n := "insert")
    (methodBody_none_of_other hmb (by decide) (by decide))
  simp [dispatchChain, hA, dispatchB, hq, hg, hs, hio, hin, h]

/-- A matched `updateOne` command reaches the `updateOne` branch. -/
theorem dc_updateOne {d jp t a} (h : matchTwoArg "updateOne" t = some a) :
    dispatchChain d jp t = some (updateOneBranch d jp a) := by
  have h' := h
  unfold matchTwoArg at h'
  obtain ⟨w, body, hmb⟩ := mb_of_bind h'
  have hsp := methodBody_splitDbCall hmb
  have hA := @dispatchA_none d jp t
    (ne_of_splitDbCall hsp _ (by decide)) (ne_of_splitDbCall hsp _ (by decide))
    (matchFind_none (methodBody_none_of_other hmb (by decide) (by decide)))
    (matchLazyArg_none (methodBody_none_of_other hmb (by decide) (by decide)))
    (matchLazyArg_none (methodBody_none_of_other hmb (by decide) (by decide)))
    (matchLazyArg_none (methodBody_none_of_other hmb (by decide) (by decide)))
  have hB := @dispatchB_none d jp t
    (matchQuotedWord_none (methodBody_none_of_other hmb (by decide) (by decide)))
    (matchEmptyParens_none (methodBody_none_of_other hmb (by decide) (by decide)))
    (matchEmptyParens_none (methodBody_none_of_other hmb (by decide) (by decide)))
    (matchGreedyArg_none (methodBody_none_of_other hmb (by decide) (by decide)))
    (matchGreedyArg_none (methodBody_none_of_other hmb (by decide) (by decide)))
    (matchGreedyArg_none (methodBody_none_of_other hmb (by decide) (by decide)))
  simp [dispatchChain, hA, hB, dispatchC, h]

/-- A matched `updateMany` command reaches the `updateMany` branch. -/
theorem dc_updateMany {d jp t a} (h : matchTwoArg "updateMany" t = some a) :
    dispatchChain d jp t = some (updateManyBranch d jp a) := by
  have h' := h
  unfold matchTwoArg at h'
  obtain ⟨w, body, hmb⟩ := mb_of_bind h'
  have hsp := methodBody_splitDbCall hmb
  have hA := @dispatchA_none d jp t
    (ne_of_splitDbCall hsp _ (by decide)) (ne_of_splitDbCall hsp _ (by decide))
    (matchFind_none (methodBody_none_of_other hmb (by decide) (by decide)))
    (matchLazyArg_none (methodBody_none_of_other hmb (by decide) (by decide)))
    (matchLazyArg_none (methodBody_none_of_other hmb (by decide) (by decide)))
    (matchLazyArg_none (methodBody_none_of_other hmb (by decide) (by decide)))
  have hB := @dispatchB_none d jp t
    (matchQuotedWord_none (methodBody_none_of_other hmb (by decide) (by decide)))
    (matchEmptyParens_none (methodBody_none_of_other hmb (by decide) (by decide)))
    (matchEmptyParens_none (methodBody_none_of_other hmb (by decide) (by decide)))
    (matchGreedyArg_none (methodBody_none_of_other hmb (by decide) (by decide)))
    (matchGreedyArg_none (methodBody_none_of_other hmb (by decide) (by decide)))
    (matchGreedyArg_none (methodBody_none_of_other hmb (by decide) (by decide)))
  have hu1 := matchTwoArg_none (n := "updateOne")
    (methodBody_none_of_other hmb (by decide) (by decide))
  simp [dispatchChain, hA, hB, dispatchC, hu1, h]

/-- A matched `deleteOne` command reaches the `deleteOne` branch. -/
theorem dc_deleteOne {d jp t a} (h : matchGreedyArg "deleteOne" t = some a) :
    dispatchChain d jp t = some (deleteOneBranch d jp a) := by
  have h' := h
  unfold matchGreedyArg at h'
  obtain ⟨w, body, hmb⟩ := mb_of_bind h'
  have hsp := methodBody_splitDbCall hmb
  have hA := @dispatchA_none d jp t
    (ne_of_splitDbCall hsp _ (by decide)) (ne_of_splitDbCall hsp _ (by decide))
    (matchFind_none (methodBody_none_of_other hmb (by decide) (by decide)))
    (matchLazyArg_none (methodBody_none_of_other hmb (by decide) (by decide)))
    (matchLazyArg_none (methodBody_none_of_other hmb (by decide) (by decide)))
    (matchLazyArg_none (methodBody_none_of_other hmb (by decide) (by decide)))
  have hB := @dispatchB_none d jp t
    (matchQuotedWord_none (methodBody_none_of_other hmb (by decide) (by decide)))
    (matchEmptyParens_none (methodBody_none_of_other hmb (by decide) (by decide)))
    (matchEmptyParens_none (methodBody_none_of_other hmb (by decide) (by decide)))
    (matchGreedyArg_none (methodBody_none_of_other hmb (by decide) (by decide)))
    (matchGreedyArg_none (methodBody_none_of_other hmb (by decide) (by decide)))
    (matchGreedyArg_none (methodBody_none_of_other hmb (by decide) (by decide)))
  have hu1 := matchTwoArg_none (n := "updateOne")
    (methodBody_none_of_other hmb (by decide) (by decide))
  have hu2 := matchTwoArg_none (n := "updateMany")
    (methodBody_none_of_other hmb (by decide) (by decide))
  simp [dispatchChain, hA, hB, dispatchC, hu1, hu2, h]

/-- A matched `deleteMany` command reaches the `deleteMany`/`remove`
branch. -/
theorem dc_deleteMany {d jp t a} (h : matchGreedyArg "deleteMany" t = some a) :
    dispatchChain d jp t = some (deleteManyBranch d jp a) := by
  have h' := h
  unfold matchGreedyArg at h'
  obtain ⟨w, body, hmb⟩ := mb_of_bind h'
  have hsp := methodBody_splitDbCall hmb
  have hA := @dispatchA_none d jp t
    (ne_of_splitDbCall hsp _ (by decide)) (ne_of_splitDbCall hsp _ (by decide))
    (matchFind_none (methodBody_none_of_other hmb (by decide) (by decide)))
    (matchLazyArg_none (methodBody_none_of_other hmb (by decide) (by decide)))
    (matchLazyArg_none (methodBody_none_of_other hmb (by decide) (by decide)))
    (matchLazyArg_none (methodBody_none_of_other hmb (by decide) (by decide)))
  have hB := @dispatchB_none d jp t
    (matchQuotedWord_none (methodBody_none_of_other hmb (by decide) (by decide)))
    (matchEmptyParens_none (methodBody_none_of_other hmb (by decide) (by decide)))
    (matchEmptyParens_none (methodBody_none_of_other hmb (by decide) (by decide)))
    (matchGreedyArg_none (methodBody_none_of_other hmb (by decide) (by decide)))
    (matchGreedyArg_none (methodBody_none_of_other hmb (by decide) (by decide)))
    (matchGreedyArg_none (methodBody_none_of_other hmb (by decide) (by decide)))
  have hu1 := matchTwoArg_none (n := "updateOne")
    (methodBody_none_of_other hmb (by decide) (by decide))
  have hu2 := matchTwoArg_none (n := "updateMany")
    (methodBody_none_of_other hmb (by decide) (by decide))
  have hd1 := matchGreedyArg_none (n := "deleteOne")
    (methodBody_none_of_other hmb (by decide) (by decide))
  simp [dispatchChain, hA, hB, dispatchC, hu1, hu2, hd1, h]

/-- A matched legacy `remove` command reaches the `deleteMany`/`remove`
branch (the `deleteMany` half of the alternation fails first). -/
theorem dc_remove {d jp t a} (h : matchGreedyArg "remove" t = some a) :
    dispatchChain d jp t = some (deleteManyBranch d jp a) := by
  have h' := h
  unfold matchGreedyArg at h'
  obtain ⟨w, body, hmb⟩ := mb_of_bind h'
  have hsp := methodBody_splitDbCall hmb
  have hA := @dispatchA_none d jp t
    (ne_of_splitDbCall hsp _ (by decide)) (ne_of_splitDbCall hsp _ (by decide))
    (matchFind_none (methodBody_none_of_other hmb (by decide) (by decide)))
    (matchLazyArg_none (methodBody_none_of_other hmb (by decide) (by decide)))
    (matchLazyArg_none (methodBody_none_of_other hmb (by decide) (by decide)))
    (matchLazyArg_none (methodBody_none_of_other hmb (by decide) (by decide)))
  have hB := @dispatchB_none d jp t
    (matchQuotedWord_none (methodBody_none_of_other hmb (by decide) (by decide)))
    (matchEmptyParens_none (methodBody_none_of_other hmb (by decide) (by decide)))
    (matchEmptyParens_none (methodBody_none_of_other hmb (by decide) (by decide)))
    (matchGreedyArg_none (methodBody_none_of_other hmb (by decide) (by decide)))
    (matchGreedyArg_none (methodBody_none_of_other hmb (by decide) (by decide)))
    (matchGreedyArg_none (methodBody_none_of_other hmb (by decide) (by decide)))
  have hu1 := matchTwoArg_none (n := "updateOne")
    (methodBody_none_of_other hmb (by decide) (by decide))
  have hu2 := matchTwoArg_none (n := "updateMany")
    (methodBody_none_of_other hmb (by decide) (by decide))
  have hd1 := matchGreedyArg_none (n := "deleteOne")
    (methodBody_none_of_other hmb (by decide) (by decide))
  have hd2 := matchGreedyArg_none (n := "deleteMany")
    (methodBody_none_of_other hmb (by decide) (by decide))
  simp [dispatchChain, hA, hB, dispatchC, hu1, hu2, hd1, hd2, h]

/-- A matched `aggregate` command reaches the `aggregate` branch. -/
theorem dc_aggregate {d jp t a} (h : matchGreedyArg "aggregate" t = some a) :
    dispatchChain d jp t = some (aggregateBranch d jp a) := by
  have h' := h
  unfold matchGreedyArg at h'
  obtain ⟨w, body, hmb⟩ := mb_of_bind h'
  have hsp := methodBody_splitDbCall hmb
  have hA := @dispatchA_none d jp t
    (ne_of_splitDbCall hsp _ (by decide)) (ne_of_splitDbCall hsp _ (by decide))
    (matchFind_none (methodBody_none_of_other hmb (by decide) (by decide)))
    (matchLazyArg_none (methodBody_none_of_other hmb (by decide) (by decide)))
    (matchLazyArg_none (methodBody_none_of_other hmb (by decide) (by decide)))
    (matchLazyArg_none (methodBody_none_of_other hmb (by decide) (by decide)))
  have hB := @dispatchB_none d jp t
    (matchQuotedWord_none (methodBody_none_of_other hmb (by decide) (by decide)))
    (matchEmptyParens_none (methodBody_none_of_other hmb (by decide) (by decide)))
    (matchEmptyParens_none (methodBody_none_of_other hmb (by decide) (by decide)))
    (matchGreedyArg_none (methodBody_none_of_other hmb (by decide) (by decide)))
    (matchGreedyArg_none (methodBody_none_of_other hmb (by decide) (by decide)))
    (matchGreedyArg_none (methodBody_none_of_other hmb (by decide) (by decide)))
  have hu1 := matchTwoArg_none (n := "updateOne")
    (methodBody_none_of_other hmb (by decide) (by decide))
  have hu2 := matchTwoArg_none (n := "updateMany")
    (methodBody_none_of_other hmb (by decide) (by decide))
  have hd1 := matchGreedyArg_none (n := "deleteOne")
    (methodBody_none_of_other hmb (by decide) (by decide))
  have hd2 := matchGreedyArg_none (n := "deleteMany")
    (methodBody_none_of_other hmb (by decide) (by decide))
  have hd3 := matchGreedyArg_none (n := "remove")
    (methodBody_none_of_other hmb (by decide) (by decide))
  have hdr := matchEmptyParens_none (n := "drop")
    (methodBody_none_of_other hmb (by decide) (by decide))
  simp [dispatchChain, hA, hB, dispatchC, hu1, hu2, hd1, hd2, hd3, hdr, h]

/-- A matched `createIndex` command reaches the `createIndex` branch. -/
theorem dc_createIndex {d jp t a} (h : matchGreedyArg "createIndex" t = some a) :
    dispatchChain d jp t = some (createIndexBranch d jp a) := by
  have h' := h
  unfold matchGreedyArg at h'
  obtain ⟨w, body, hmb⟩ := mb_of_bind h'
  have hsp := methodBody_splitDbCall hmb
  have hA := @dispatchA_none d jp t
    (ne_of_splitDbCall hsp _ (by decide)) (ne_of_splitDbCall hsp _ (by decide))
    (matchFind_none (methodBody_none_of_other hmb (by decide) (by decide)))
    (matchLazyArg_none (methodBody_none_of_other hmb (by decide) (by decide)))
    (matchLazyArg_none (methodBody_none_of_other hmb (by decide) (by decide)))
    (matchLazyArg_none (methodBody_none_of_other hmb (by decide) (by decide)))
  have hB := @dispatchB_none d jp t
    (matchQuotedWord_none (methodBody_none_of_other hmb (by decide) (by decide)))
    (matchEmptyParens_none (methodBody_none_of_other hmb (by decide) (by decide)))
    (matchEmptyParens_none (methodBody_none_of_other hmb (by decide) (by decide)))
    (matchGreedyArg_none (methodBody_none_of_other hmb (by decide) (by decide)))
    (matchGreedyArg_none (methodBody_none_of_other hmb (by decide) (by decide)))
    (matchGreedyArg_none (methodBody_none_of_other hmb (by decide) (by decide)))
  have hC := @dispatchC_none d jp t
    (matchTwoArg_none (methodBody_none_of_other hmb (by decide) (by decide)))
    (matchTwoArg_none (methodBody_none_of_other hmb (by decide) (by decide)))
    (matchGreedyArg_none (methodBody_none_of_other hmb (by decide) (by decide)))
    (matchGreedyArg_none (methodBody_none_of_other hmb (by decide) (by decide)))
    (matchGreedyArg_none (methodBody_none_of_other hmb (by decide) (by decide)))
    (matchEmptyParens_none (methodBody_none_of_other hmb (by decide) (by decide)))
    (matchGreedyArg_none (methodBody_none_of_other hmb (by decide) (by decide)))
  simp [dispatchChain, hA, hB, hC, dispatchD, h]

/-- A command starting with a brace reaches the raw-command branch. -/
theorem dc_raw {d jp t u} (h : t = '\x7b' :: u) :
    dispatchChain d jp t = some (rawCommandBranch d jp t) := by
  subst h
  have hsp : splitDbCall ('\x7b' :: u) = none := by
    simp [splitDbCall, stripPfx]
  have hA := @dispatchA_none d jp ('\x7b' :: u)
    (by simp) (by simp)
    (matchFind_none (methodBody_none_of_split hsp))
    (matchLazyArg_none (methodBody_none_of_split hsp))
    (matchLazyArg_none (methodBody_none_of_split hsp))
    (matchLazyArg_none (methodBody_none_of_split hsp))
  have hB := @dispatchB_none d jp ('\x7b' :: u)
    (matchQuotedWord_none (methodBody_none_of_split hsp))
    (matchEmptyParens_none (methodBody_none_of_split hsp))
    (matchEmptyParens_none (methodBody_none_of_split hsp))
    (matchGreedyArg_none (methodBody_none_of_split hsp))
    (matchGreedyArg_none (methodBody_none_of_split hsp))
    (matchGreedyArg_none (methodBody_none_of_split hsp))
  have hC := @dispatchC_none d jp ('\x7b' :: u)
    (matchTwoArg_none (methodBody_none_of_split hsp))
    (matchTwoArg_none (methodBody_none_of_split hsp))
    (matchGreedyArg_none (methodBody_none_of_split hsp))
    (matchGreedyArg_none (methodBody_none_of_split hsp))
    (matchGreedyArg_none (methodBody_none_of_split hsp))
    (matchEmptyParens_none (methodBody_none_of_split hsp))
    (matchGreedyArg_none (methodBody_none_of_split hsp))
  have hci := matchGreedyArg_none (n := "createIndex") (methodBody_none_of_split hsp)
  have hdi := matchQuotedAny_none (n := "dropIndex") (methodBody_none_of_split hsp)
  have hus : matchUse ('\x7b' :: u) = none := by
    simp [matchUse, stripPfx]
  have hcc : matchCreateCollection ('\x7b' :: u) = none := by
    simp [matchCreateCollection, stripPfx]
  simp [dispatchChain, hA, hB, hC, dispatchD, hci, hdi, hus, hcc]

/- ### Pool map lemmas -/

theorem mapGet_mapDelete_self (m : PoolMap) (k : String) :
    mapGet (mapDelete m k) k = none := by
  induction m with
  | nil => rfl
  | cons p r ih =>
    by_cases hk : p.1 = k
    · simp only [mapDelete, List.filter_cons]
      rw [show (!(p.1 == k)) = false from by simp [hk]]
      exact ih
    · simp only [mapDelete, mapGet, List.filter_cons]
      rw [show (!(p.1 == k)) = true from by simp [hk]]
      simp only [List.find?]
      rw [show (decide (p.1 = k)) = false from by simp [hk]]
      exact ih

theorem mapDelete_of_get_none {m : PoolMap} {k : String} (h : mapGet m k = none) :
    mapDelete m k = m := by
  induction m with
  | nil => rfl
  | cons p r ih =>
    by_cases hk : p.1 = k
    · simp [mapGet, List.find?, hk] at h
    · simp only [mapGet, List.find?, hk, decide_False] at h
      have hr : mapDelete r k = r := ih (show mapGet r k = none by simpa [mapGet] using h)
      unfold mapDelete at hr ⊢
      simp only [List.filter_cons]
      rw [show (!(p.1 == k)) = true from by simp [hk]]
      simp [hr]

theorem closeConnection_pool (s : MState) (id : String) (ce : Nat → Option String) :
    (closeConnection s id ce).pool = mapDelete s.pool id := by
  unfold closeConnection
  cases hx : mapGet s.pool id with
  | some e => rfl
  | none => simp [mapDelete_of_get_none hx]

theorem closeConnection_closed_mono (s : MState) (id : String) (ce : Nat → Option String) :
    ∀ c ∈ s.closed, c ∈ (closeConnection s id ce).closed := by
  unfold closeConnection
  cases hx : mapGet s.pool id with
  | some e =>
    intro c hc
    cases hy : ce e.client <;> simp [hy] <;> exact Or.inl hc
  | none => intro c hc; exact hc

theorem keysNodup_mapDelete {m : PoolMap} (h : keysNodup m) (k : String) :
    keysNodup (mapDelete m k) := by
  unfold keysNodup at h ⊢
  unfold mapDelete
  induction m with
  | nil => simp
  | cons p r ih =>
    simp only [List.map_cons, List.nodup_cons] at h
    by_cases hk : p.1 = k
    · simp only [List.filter]
      rw [show (!(p.1 == k)) = false from by simp [hk]]
      exact ih h.2
    · simp only [List.filter]
      rw [show (!(p.1 == k)) = true from by simp [hk]]
      simp only [List.map_cons, List.nodup_cons]
      refine ⟨fun hm => h.1 ?_, ih h.2⟩
      obtain ⟨q, hq, hq1⟩ := List.mem_map.1 hm
      exact List.mem_map.2 ⟨q, (List.mem_filter.1 hq).1, hq1⟩

theorem keysNodup_mapSet {m : PoolMap} (h : keysNodup m) (k : String) (v : PoolEntry) :
    keysNodup (mapSet m k v) := by
  unfold keysNodup at h ⊢
  induction m with
  | nil => simp [mapSet]
  | cons p r ih =>
    simp only [List.map_cons, List.nodup_cons] at h
    by_cases hk : p.1 = k
    · simp only [mapSet, if_pos hk, List.map_cons, List.nodup_cons]
      exact ⟨by rw [← hk]; exact h.1, h.2⟩
    · simp only [mapSet, if_neg hk, List.map_cons, List.nodup_cons]
      refine ⟨fun hm => ?_, ih h.2⟩
      -- p.1 appears among the keys of `mapSet r k v`: it is either an old
      -- key of r or the new key k, both impossible
      have hmem : p.1 ∈ r.map Prod.fst ∨ p.1 = k := by
        clear ih h
        induction r with
        | nil => simpa [mapSet] using hm
        | cons q r ih2 =>
          by_cases hq : q.1 = k
          · simp only [mapSet, if_pos hq, List.map_cons, List.mem_cons] at hm
            rcases hm with hm | hm
            · exact Or.inr hm
            · exact Or.inl (by simp [hm])
          · simp only [mapSet, if_neg hq, List.map_cons, List.mem_cons] at hm
            rcases hm with hm | hm
            · exact Or.inl (by simp [hm])
            · rcases ih2 hm with h1 | h1
              · exact Or.inl (by simp [h1])
              · exact Or.inr h1
      rcases hmem with h1 | h1
      · exact h.1 h1
      · exact hk h1

theorem mem_key_unique {m : PoolMap} (h : keysNodup m) {p q : String × PoolEntry}
    (hp : p ∈ m) (hq : q ∈ m) (hk : p.1 = q.1) : p = q := by
  unfold keysNodup at h
  induction m with
  | nil => cases hp
  | cons x r ih =>
    simp only [List.map_cons, List.nodup_cons] at h
    rcases List.mem_cons.1 hp with rfl | hp' <;> rcases List.mem_cons.1 hq with rfl | hq'
    · rfl
    · exact absurd (List.mem_map.2 ⟨q, hq', hk.symm⟩) h.1
    · exact absurd (List.mem_map.2 ⟨p, hp', hk⟩) h.1
    · exact ih h.2 hp' hq'

theorem mapGet_of_mem_nodup {m : PoolMap} (h : keysNodup m) {k : String} {e : PoolEntry}
    (hm : (k, e) ∈ m) : mapGet m k = some e := by
  induction m with
  | nil => cases hm
  | cons p r ih =>
    rcases List.mem_cons.1 hm with rfl | hm'
    · simp [mapGet, List.find?]
    · by_cases hk : p.1 = k
      · have : p = (k, e) :=
          mem_key_unique h (List.mem_cons_self p r) hm (by simpa using hk)
        subst this
        simp [mapGet, List.find?]
      · unfold keysNodup at h
        simp only [List.map_cons, List.nodup_cons] at h
        have := ih h.2 hm'
        simpa [mapGet, List.find?, hk] using this

theorem keysNodup_closeConnection {s : MState} (h : keysNodup s.pool) (id : String)
    (ce : Nat → Option String) : keysNodup (closeConnection s id ce).pool := by
  rw [closeConnection_pool]
  exact keysNodup_mapDelete h id

theorem sweep_fold_pool (now : Int) (ce : Nat → Option String) :
    ∀ (l : List (String × PoolEntry)) (acc : MState),
    (l.foldl
        (fun acc p =>
          if idleTimeout < now - p.2.lastUsed then closeConnection acc p.1 ce else acc)
        acc).pool
      = acc.pool.filter
          (fun q => !(l.any (fun p => p.1 == q.1 && decide (idleTimeout < now - p.2.lastUsed)))) := by
  intro l
  induction l with
  | nil => intro acc; simp
  | cons p l ih =>
    intro acc
    by_cases hp : idleTimeout < now - p.2.lastUsed
    · rw [List.foldl_cons, if_pos hp, ih, closeConnection_pool]
      unfold mapDelete
      rw [List.filter_filter]
      apply List.filter_congr
      intro q _
      simp only [List.any_cons, hp, decide_True, Bool.and_true, Bool.not_or]
      have hsymm : (q.1 == p.1) = (p.1 == q.1) := by
        by_cases hc : p.1 = q.1
        · simp [hc]
        · simp [hc, Ne.symm hc]
      rw [Bool.and_comm, hsymm]
    · rw [List.foldl_cons, if_neg hp, ih]
      apply List.filter_congr
      intro q _
      simp [List.any_cons, hp]

theorem sweep_fold_closed_mono (now : Int) (ce : Nat → Option String) :
    ∀ (l : List (String × PoolEntry)) (acc : MState), ∀ c ∈ acc.closed,
      c ∈ (l.foldl
        (fun acc p =>
          if idleTimeout < now - p.2.lastUsed then closeConnection acc p.1 ce else acc)
        acc).closed := by
  intro l
  induction l with
  | nil => intro acc c hc; exact hc
  | cons p l ih =>
    intro acc c hc
    rw [List.foldl_cons]
    by_cases hp : idleTimeout < now - p.2.lastUsed
    · rw [if_pos hp]
      exact ih _ c (closeConnection_closed_mono acc p.1 ce c hc)
    · rw [if_neg hp]
      exact ih _ c hc

theorem sweep_fold_closed (now : Int) (ce : Nat → Option String) :
    ∀ (l : List (String × PoolEntry)) (acc : MState),
      keysNodup acc.pool → (l.map Prod.fst).Nodup → (∀ q ∈ l, q ∈ acc.pool) →
      ∀ q ∈ l, idleTimeout < now - q.2.lastUsed →
        q.2.client ∈ (l.foldl
          (fun acc p =>
            if idleTimeout < now - p.2.lastUsed then closeConnection acc p.1 ce else acc)
          acc).closed := by
  intro l
  induction l with
  | nil => intro acc _ _ _ q hq; cases hq
  | cons p l ih =>
    intro acc hnd hlnd hmem q hq hstale
    rw [List.foldl_cons]
    simp only [List.map_cons, List.nodup_cons] at hlnd
    rcases List.mem_cons.1 hq with rfl | hq'
    · rw [if_pos hstale]
      have hget : mapGet acc.pool q.1 = some q.2 :=
        mapGet_of_mem_nodup hnd (by simpa using hmem q (List.mem_cons_self q l))
      have hcl : q.2.client ∈ (closeConnection acc q.1 ce).closed := by
        unfold closeConnection
        rw [hget]
        cases ce q.2.client <;> simp
      exact sweep_fold_closed_mono now ce l _ _ hcl
    · have hih : ∀ acc' : MState, keysNodup acc'.pool → (∀ z ∈ l, z ∈ acc'.pool) →
          q.2.client ∈ (l.foldl
            (fun acc p =>
              if idleTimeout < now - p.2.lastUsed then closeConnection acc p.1 ce else acc)
            acc').closed :=
        fun acc' h1 h2 => ih acc' h1 hlnd.2 h2 q hq' hstale
      by_cases hp : idleTimeout < now - p.2.lastUsed
      · rw [if_pos hp]
        refine hih _ (keysNodup_closeConnection hnd p.1 ce) ?_
        intro z hz
        rw [closeConnection_pool]
        have hzp : z ∈ acc.pool := hmem z (List.mem_cons_of_mem p hz)
        have hzk : ¬(z.1 = p.1) := by
          intro he
          exact hlnd.1 (List.mem_map.2 ⟨z, hz, he⟩)
        unfold mapDelete
        exact List.mem_filter.2 ⟨hzp, by simp [hzk]⟩
      · rw [if_neg hp]
        exact hih acc hnd (fun z hz => hmem z (List.mem_cons_of_mem p hz))

/- ### Claims about the extended-JSON codec -/

/-- C2 counterexample: decoding is not total — the wrapper
`\x7b"$oid": "zz"\x7d` carries a truthy string that is not a valid
ObjectId, and `convertExtendedJson` reaches `new ObjectId("zz")`, which
throws, instead of passing the wrapper through unchanged. -/
theorem C2_counterexample :
    convertExtendedJson (.obj [("$oid", .str "zz")]) = .error oidErrMsg ∧
    convertExtendedJson (.obj [("$oid", .str "zz")]) ≠
      .ok (.obj [("$oid", .str "zz")]) := by
  constructor
  · rfl
  · intro h
    rw [show convertExtendedJson (.obj [("$oid", Json.str "zz")]) = .error oidErrMsg
      from rfl] at h
    exact Except.noConfusion h

/-- C2 (amended): extended-JSON decoding is total on every JSON tree that
contains no `$oid` wrapper whose payload is a truthy string failing
`ObjectId.isValid`; on such a wrapper it throws the `new ObjectId`
`BSONError` instead of passing the wrapper through. -/
theorem C2_decode_totality :
    (∀ j : Json, hasBadOid j = false → ∃ b, convertExtendedJson j = .ok b) ∧
    (∀ s : String, isValidOidStr s = false → s ≠ "" →
      convertExtendedJson (.obj [("$oid", .str s)]) = .error oidErrMsg) := by
  constructor
  · exact convertExtendedJson_total
  · intro s hv hs
    simp [convertExtendedJson, oidTruthyStr, lookupField, List.find?, hs, hv]

/-- Witness for C2: a concrete benign tree decodes, and a concrete bad
`$oid` wrapper throws. -/
theorem C2_witness :
    (∃ b, convertExtendedJson (.obj [("a", .str "x")]) = .ok b) ∧
    convertExtendedJson (.obj [("$oid", .str "zz")]) = .error oidErrMsg :=
  ⟨C2_decode_totality.1 (.obj [("a", .str "x")]) rfl,
   C2_decode_totality.2 "zz" rfl (by decide)⟩

/-- C6 counterexample: `encode (decode x) ≠ x` for the representable value
`x = \x7b"$oid": "ABCDEF0123456789ABCDEF01"\x7d` — the decoder accepts the
uppercase hex but `ObjectId.toString` emits lowercase, so the round trip
changes the string. -/
theorem C6_counterexample :
    convertExtendedJson (.obj [("$oid", .str "ABCDEF0123456789ABCDEF01")]) =
      .ok (.oid "abcdef0123456789abcdef01") ∧
    documentToJson (.oid "abcdef0123456789abcdef01") =
      .ok (.obj [("$oid", .str "abcdef0123456789abcdef01")]) ∧
    Json.obj [("$oid", .str "abcdef0123456789abcdef01")] ≠
      Json.obj [("$oid", .str "ABCDEF0123456789ABCDEF01")] := by
  refine ⟨rfl, rfl, by decide⟩

/-- C6 (amended): encode after decode round-trips every canonical
extended-JSON tree: `$oid` wrappers holding lowercase valid hex, `$date`
wrappers holding strings fixed by parse-then-`toISOString`, and no other
object carrying a truthy `$oid`/`$date` field or an `_id` field holding a
valid ObjectId string. -/
theorem C6_roundtrip (j : Json) (h : canonicalEJ j = true) :
    ∃ b, convertExtendedJson j = .ok b ∧ documentToJson b = .ok j :=
  roundtrip_canonical j h

/-- Witness for C6 at a concrete canonical tree. -/
theorem C6_witness :
    ∃ b,
      convertExtendedJson
          (.arr [.obj [("$oid", .str "abcdef0123456789abcdef01")],
            .obj [("_id", .str "x"), ("n", .num 3)]]) = .ok b ∧
      documentToJson b =
        .ok (.arr [.obj [("$oid", .str "abcdef0123456789abcdef01")],
          .obj [("_id", .str "x"), ("n", .num 3)]]) :=
  C6_roundtrip _ (by decide)

/-- C10 counterexample: a field named `$oid` holding a valid-ObjectId
string is not "left as a plain string" — the whole containing object is
replaced by an ObjectId. -/
theorem C10_counterexample :
    convertExtendedJson (.obj [("$oid", .str "abcdef0123456789abcdef01")]) =
      .ok (.oid "abcdef0123456789abcdef01") ∧
    BVal.oid "abcdef0123456789abcdef01" ≠
      .obj [("$oid", .str "abcdef0123456789abcdef01")] := by
  refine ⟨rfl, by decide⟩

/-- C10 (amended): during decoding, every object without a truthy-string
`$oid` field and without a truthy `$date` field (the sentinel wrappers,
which instead convert the whole containing object) is decoded by the
field recursion, and within that recursion — at any nesting depth and
among any other fields — every field named `_id` whose string value is a
valid ObjectId converts to an ObjectId, while every other string-valued
field (`_id` with an invalid string, or any other field name) stays a
plain string. -/
theorem C10_id_conversion :
    (∀ fs : List (String × Json), oidTruthyStr fs = none → dateTruthy fs = none →
      convertExtendedJson (.obj fs) = (convFields fs).map BVal.obj) ∧
    (∀ (fs : List (String × Json)) (gs : List (String × BVal)),
      convFields fs = .ok gs → ∀ (k s : String), (k, Json.str s) ∈ fs →
      (k = "_id" → isValidOidStr s = true → (k, BVal.oid (oidNormalize s)) ∈ gs) ∧
      (k ≠ "_id" ∨ isValidOidStr s = false → (k, BVal.str s) ∈ gs)) := by
  constructor
  · intro fs h1 h2
    unfold convertExtendedJson
    rw [h1, h2]
    cases convFields fs <;> rfl
  · intro fs
    induction fs with
    | nil =>
      intro gs _ k s hm
      cases hm
    | cons p r ih =>
      intro gs hconv k s hm
      obtain ⟨k0, v0⟩ := p
      cases hio : idOidOf k0 v0 with
      | some s0 =>
        simp only [convFields, hio] at hconv
        cases hr : convFields r with
        | error e =>
          rw [hr] at hconv
          exact absurd hconv (by simp)
        | ok bs =>
          rw [hr] at hconv
          injection hconv with hg
          subst hg
          rcases List.mem_cons.1 hm with heq | hm'
          · injection heq with hk hv
            subst hk
            subst hv
            have hio' := hio
            unfold idOidOf at hio'
            dsimp only at hio'
            by_cases hcond : (k = "_id" && isValidOidStr s) = true
            · rw [if_pos hcond] at hio'
              injection hio' with hs0
              subst hs0
              simp only [Bool.and_eq_true, decide_eq_true_eq] at hcond
              constructor
              · intro _ _
                exact List.mem_cons_self _ _
              · intro hdisj
                rcases hdisj with hne | hinv
                · exact absurd hcond.1 hne
                · rw [hcond.2] at hinv
                  exact absurd hinv (by simp)
            · rw [if_neg hcond] at hio'
              exact absurd hio' (by simp)
          · have := ih bs hr k s hm'
            exact ⟨fun h1 h2 => List.mem_cons_of_mem _ (this.1 h1 h2),
              fun h1 => List.mem_cons_of_mem _ (this.2 h1)⟩
      | none =>
        simp only [convFields, hio] at hconv
        cases hcv : convertExtendedJson v0 with
        | error e =>
          rw [hcv] at hconv
          exact absurd hconv (by simp)
        | ok b =>
          rw [hcv] at hconv
          cases hr : convFields r with
          | error e =>
            rw [hr] at hconv
            exact absurd hconv (by simp)
          | ok bs =>
            rw [hr] at hconv
            injection hconv with hg
            subst hg
            rcases List.mem_cons.1 hm with heq | hm'
            · injection heq with hk hv
              subst hk
              subst hv
              have hb : b = BVal.str s := by
                rw [show convertExtendedJson (Json.str s) = .ok (BVal.str s) from rfl]
                  at hcv
                injection hcv with hb'
                exact hb'.symm
              subst hb
              constructor
              · intro hid hval
                exfalso
                have hio2 := hio
                unfold idOidOf at hio2
                dsimp only at hio2
                rw [if_pos (by simp [hid, hval])] at hio2
                exact absurd hio2 (by simp)
              · intro _
                exact List.mem_cons_self _ _
            · have := ih bs hr k s hm'
              exact ⟨fun h1 h2 => List.mem_cons_of_mem _ (this.1 h1 h2),
                fun h1 => List.mem_cons_of_mem _ (this.2 h1)⟩

/-- Witness for C10 at a concrete multi-field object: the `_id` field
converts, the sibling string field stays a string, and the object's
decode goes through the field recursion. -/
theorem C10_witness :
    (("_id", BVal.oid "abcdef0123456789abcdef01") ∈
      [("_id", BVal.oid "abcdef0123456789abcdef01"), ("name", BVal.str "zz")]) ∧
    (("name", BVal.str "zz") ∈
      [("_id", BVal.oid "abcdef0123456789abcdef01"), ("name", BVal.str "zz")]) ∧
    convertExtendedJson
        (.obj [("_id", .str "abcdef0123456789abcdef01"), ("name", .str "zz")]) =
      .ok (.obj [("_id", .oid "abcdef0123456789abcdef01"), ("name", .str "zz")]) :=
  ⟨(C10_id_conversion.2
      [("_id", .str "abcdef0123456789abcdef01"), ("name", .str "zz")]
      [("_id", BVal.oid "abcdef0123456789abcdef01"), ("name", BVal.str "zz")]
      rfl "_id" "abcdef0123456789abcdef01" (by decide)).1 rfl (by decide),
   (C10_id_conversion.2
      [("_id", .str "abcdef0123456789abcdef01"), ("name", .str "zz")]
      [("_id", BVal.oid "abcdef0123456789abcdef01"), ("name", BVal.str "zz")]
      rfl "name" "zz" (by decide)).2 (Or.inl (by decide)),
   by
     rw [C10_id_conversion.1
        [("_id", .str "abcdef0123456789abcdef01"), ("name", .str "zz")] rfl rfl]
     rfl⟩

/- ### Claims about the pool manager -/

theorem closeConnection_of_get_none (s : MState) (id : String)
    (ce : Nat → Option String) (h : mapGet s.pool id = none) :
    closeConnection s id ce = s := by
  unfold closeConnection
  rw [h]

/-- C7: `closeConnection` is idempotent and never throws: with a cached
client its close is attempted (errors logged and swallowed) and the entry
removed; with no cached client it is a no-op; and closing twice equals
closing once. -/
theorem C7_closeConnection (s : MState) (id : String) (ce : Nat → Option String) :
    closeConnection (closeConnection s id ce) id ce = closeConnection s id ce ∧
    (mapGet s.pool id = none → closeConnection s id ce = s) ∧
    (∀ e, mapGet s.pool id = some e →
      closeConnection s id ce =
        { pool := mapDelete s.pool id
          closed := s.closed ++ [e.client]
          log :=
            match ce e.client with
            | some m => s.log ++ ["Error closing connection " ++ id ++ ": " ++ m]
            | none => s.log }) ∧
    mapGet (closeConnection s id ce).pool id = none := by
  have h4 : mapGet (closeConnection s id ce).pool id = none := by
    rw [closeConnection_pool]
    exact mapGet_mapDelete_self _ _
  refine ⟨closeConnection_of_get_none _ _ _ h4, closeConnection_of_get_none _ _ _, ?_, h4⟩
  intro e he
  unfold closeConnection
  rw [he]

/-- Witness for C7 at a concrete pool state. -/
theorem C7_witness :
    closeConnection (closeConnection ⟨[("a", ⟨5, 0⟩)], [], []⟩ "a" (fun _ => none)) "a"
        (fun _ => none) =
      closeConnection ⟨[("a", ⟨5, 0⟩)], [], []⟩ "a" (fun _ => none) ∧
    closeConnection ⟨[("a", ⟨5, 0⟩)], [], []⟩ "b" (fun _ => none) =
      ⟨[("a", ⟨5, 0⟩)], [], []⟩ :=
  ⟨(C7_closeConnection ⟨[("a", ⟨5, 0⟩)], [], []⟩ "a" (fun _ => none)).1,
   (C7_closeConnection ⟨[("a", ⟨5, 0⟩)], [], []⟩ "b" (fun _ => none)).2.1 (by decide)⟩

/-- C8: one tick of the idle sweep retains exactly the entries used within
the 5-minute threshold, closes every stale client, and the tick interval
constant is 60000 ms. -/
theorem C8_idle_sweep (now : Int) (s : MState) (ce : Nat → Option String)
    (hnd : keysNodup s.pool) :
    (∀ q, q ∈ (cleanupSweep now s ce).pool ↔
      q ∈ s.pool ∧ now - q.2.lastUsed ≤ idleTimeout) ∧
    (∀ q ∈ s.pool, idleTimeout < now - q.2.lastUsed →
      q.2.client ∈ (cleanupSweep now s ce).closed) ∧
    cleanupIntervalMs = 60000 ∧ idleTimeout = 300000 := by
  refine ⟨?_, ?_, rfl, rfl⟩
  · intro q
    unfold cleanupSweep
    rw [sweep_fold_pool]
    constructor
    · intro hq
      obtain ⟨hq1, hq2⟩ := List.mem_filter.1 hq
      refine ⟨hq1, ?_⟩
      by_contra hlt
      push_neg at hlt
      have hany : s.pool.any
          (fun p => p.1 == q.1 && decide (idleTimeout < now - p.2.lastUsed)) = true :=
        List.any_eq_true.2 ⟨q, hq1, by simp [hlt]⟩
      rw [hany] at hq2
      exact absurd hq2 (by simp)
    · rintro ⟨hq, hle⟩
      refine List.mem_filter.2 ⟨hq, ?_⟩
      simp only [Bool.not_eq_true']
      refine List.any_eq_false.2 ?_
      intro p hp
      by_cases hpq : p.1 = q.1
      · have hpe : p = q := mem_key_unique hnd hp hq hpq
        subst hpe
        simp [not_lt.2 hle]
      · simp [hpq]
  · intro q hq hst
    unfold cleanupSweep
    exact sweep_fold_closed now ce s.pool s hnd hnd (fun z hz => hz) q hq hst

/-- Witness for C8: a stale client is evicted and closed, a fresh one is
retained. -/
theorem C8_witness :
    ("b", ⟨2, 400000⟩) ∈ (cleanupSweep 500000 ⟨[("a", ⟨1, 0⟩), ("b", ⟨2, 400000⟩)], [], []⟩
        (fun _ => none)).pool ∧
    (("a", ⟨1, 0⟩) ∉ (cleanupSweep 500000 ⟨[("a", ⟨1, 0⟩), ("b", ⟨2, 400000⟩)], [], []⟩
        (fun _ => none)).pool) ∧
    1 ∈ (cleanupSweep 500000 ⟨[("a", ⟨1, 0⟩), ("b", ⟨2, 400000⟩)], [], []⟩
        (fun _ => none)).closed := by
  refine ⟨?_, ?_, ?_⟩
  · exact ((C8_idle_sweep 500000 _ _ (by unfold keysNodup; decide)).1 _).2 ⟨by decide, by decide⟩
  · intro hmem
    exact absurd (((C8_idle_sweep 500000 _ _ (by unfold keysNodup; decide)).1 _).1 hmem).2
      (by decide)
  · exact (C8_idle_sweep 500000 _ _ (by unfold keysNodup; decide)).2.1 ("a", ⟨1, 0⟩)
      (by decide) (by decide)

/-- C4: when the connection record is missing from the freshly loaded
store, `getClient` evicts any stale cached client for that id and then
fails with the NotFound error, leaving no pooled client for the id. -/
theorem C4_missing_record (configs : List ConnConfig) (s : MState) (id : String)
    (cr : Except String Nat) (ce : Nat → Option String) (now : Int)
    (h : configs.find? (fun c => c.id = id) = none) :
    (getClientOnce configs s id cr ce now).1 = .error ("Connection not found: " ++ id) ∧
    mapGet (getClientOnce configs s id cr ce now).2.pool id = none := by
  unfold getClientOnce
  rw [h]
  refine ⟨rfl, ?_⟩
  by_cases hc : (mapGet s.pool id).isSome
  · simp only [if_pos hc]
    rw [closeConnection_pool]
    exact mapGet_mapDelete_self _ _
  · simp only [if_neg hc]
    exact Option.not_isSome_iff_eq_none.1 hc

/-- Witness for C4: a cached client for a deleted record is evicted and
the call errors. -/
theorem C4_witness :
    (getClientOnce [⟨"b", none, none, none, none, none, none⟩]
        ⟨[("a", ⟨5, 0⟩)], [], []⟩ "a" (.ok 9) (fun _ => none) 0).1 =
      .error "Connection not found: a" ∧
    mapGet (getClientOnce [⟨"b", none, none, none, none, none, none⟩]
        ⟨[("a", ⟨5, 0⟩)], [], []⟩ "a" (.ok 9) (fun _ => none) 0).2.pool "a" = none :=
  C4_missing_record [⟨"b", none, none, none, none, none, none⟩]
    ⟨[("a", ⟨5, 0⟩)], [], []⟩ "a" (.ok 9) (fun _ => none) 0 (by decide)

theorem stepCall_keys (configs : List String) (σ : ConcState) (i : Nat)
    (h : keysNodup σ.pool) : keysNodup (stepCall configs σ i).pool := by
  unfold stepCall
  rcases hcall : σ.calls[i]? with _ | ⟨cid, ph⟩
  · exact h
  · dsimp only
    cases ph with
    | start =>
      by_cases hc : configs.contains cid = true
      · rw [if_pos hc]
        dsimp only
        rcases hm : mapGet σ.pool cid with _ | e
        · exact h
        · exact keysNodup_mapSet h cid _
      · rw [if_neg hc]
        exact keysNodup_mapDelete h cid
    | connecting hdl => exact keysNodup_mapSet h cid _
    | finished r => exact h

/-- C1 counterexample: with the connection record present and the pool
empty, the schedule that runs both calls up to their `connect` suspension
before either resumes makes `getClient` construct two driver clients for
the same connection id. -/
theorem C1_counterexample :
    ¬ (∀ (configs cids : List String) (sched : List Nat) (id : String),
        ((runCalls configs cids sched).created.filter (fun p => p.1 == id)).length ≤ 1) := by
  intro h
  exact absurd (h ["a"] ["a", "a"] [0, 1, 0, 1] "a") (by decide)

/-- C1 (amended): the pool map always holds at most one entry per
connection id (it is a map keyed by the id, and every step writes through
`Map.set`/`Map.delete`), even though `getClient` is not single-flight:
the map slot is written only after `connect` resolves, so concurrent
callers for an uncached id each construct their own driver client. -/
theorem C1_pool_unique (configs cids : List String) (sched : List Nat) :
    keysNodup (runCalls configs cids sched).pool := by
  unfold runCalls
  have step : ∀ (sch : List Nat) (σ : ConcState), keysNodup σ.pool →
      keysNodup ((sch.foldl (stepCall configs) σ).pool) := by
    intro sch
    induction sch with
    | nil => intro σ h; exact h
    | cons i r ih => intro σ h; exact ih _ (stepCall_keys configs σ i h)
  refine step sched _ ?_
  unfold keysNodup
  simp

/- ### Claims about the shell interpreter -/

theorem executeShell_eq {d : Driver} {jp : String → Except String Json} {cmd : String}
    {r : ShellResult} (hne : cmd ≠ "")
    (h : dispatchChain d jp (trimChars cmd.data) = some r) : executeShell d jp cmd = r := by
  unfold executeShell
  rw [if_neg hne, h]
  rfl

theorem es_insertOne {d jp cmd a m}
    (h : matchGreedyArg "insertOne" (trimChars cmd.data) = some a)
    (hjp : jp (String.mk a.2) = .error m) :
    executeShell d jp cmd = .ok (errObj ("Invalid document JSON: " ++ m)) := by
  have hne : cmd ≠ "" := by
    intro hc
    rw [hc] at h
    rw [show matchGreedyArg "insertOne" (trimChars "".data) = none from rfl] at h
    exact Option.noConfusion h
  rw [executeShell_eq hne (dc_insertOne h)]
  simp [insertOneBranch, hjp]

theorem es_insert {d jp cmd a m}
    (h : matchGreedyArg "insert" (trimChars cmd.data) = some a)
    (hjp : jp (String.mk a.2) = .error m) :
    executeShell d jp cmd = .ok (errObj ("Invalid document JSON: " ++ m)) := by
  have hne : cmd ≠ "" := by
    intro hc
    rw [hc] at h
    rw [show matchGreedyArg "insert" (trimChars "".data) = none from rfl] at h
    exact Option.noConfusion h
  rw [executeShell_eq hne (dc_insert h)]
  simp [insertBranch, hjp]

theorem es_insertMany {d jp cmd a m}
    (h : matchGreedyArg "insertMany" (trimChars cmd.data) = some a)
    (hjp : jp (String.mk a.2) = .error m) :
    executeShell d jp cmd = .ok (errObj ("Invalid documents JSON: " ++ m)) := by
  have hne : cmd ≠ "" := by
    intro hc
    rw [hc] at h
    rw [show matchGreedyArg "insertMany" (trimChars "".data) = none from rfl] at h
    exact Option.noConfusion h
  rw [executeShell_eq hne (dc_insertMany h)]
  simp [insertManyBranch, hjp]

theorem es_updateOne {d jp cmd a m}
    (h : matchTwoArg "updateOne" (trimChars cmd.data) = some a)
    (hjp : jp (String.mk (trimChars a.2.1)) = .error m) :
    executeShell d jp cmd = .ok (errObj ("Invalid JSON: " ++ m)) := by
  have hne : cmd ≠ "" := by
    intro hc
    rw [hc] at h
    rw [show matchTwoArg "updateOne" (trimChars "".data) = none from rfl] at h
    exact Option.noConfusion h
  rw [executeShell_eq hne (dc_updateOne h)]
  simp [updateOneBranch, hjp]

theorem es_updateMany {d jp cmd a m}
    (h : matchTwoArg "updateMany" (trimChars cmd.data) = some a)
    (hjp : jp (String.mk (trimChars a.2.1)) = .error m) :
    executeShell d jp cmd = .ok (errObj ("Invalid JSON: " ++ m)) := by
  have hne : cmd ≠ "" := by
    intro hc
    rw [hc] at h
    rw [show matchTwoArg "updateMany" (trimChars "".data) = none from rfl] at h
    exact Option.noConfusion h
  rw [executeShell_eq hne (dc_updateMany h)]
  simp [updateManyBranch, hjp]

theorem es_deleteOne {d jp cmd a m}
    (h : matchGreedyArg "deleteOne" (trimChars cmd.data) = some a)
    (hjp : jp (String.mk (trimChars a.2)) = .error m) :
    executeShell d jp cmd = .ok (errObj ("Invalid filter JSON: " ++ m)) := by
  have hne : cmd ≠ "" := by
    intro hc
    rw [hc] at h
    rw [show matchGreedyArg "deleteOne" (trimChars "".data) = none from rfl] at h
    exact Option.noConfusion h
  rw [executeShell_eq hne (dc_deleteOne h)]
  simp [deleteOneBranch, hjp]

theorem es_deleteMany {d jp cmd a m}
    (h : matchGreedyArg "deleteMany" (trimChars cmd.data) = some a)
    (hjp : jp (String.mk (trimChars a.2)) = .error m) :
    executeShell d jp cmd = .ok (errObj ("Invalid filter JSON: " ++ m)) := by
  have hne : cmd ≠ "" := by
    intro hc
    rw [hc] at h
    rw [show matchGreedyArg "deleteMany" (trimChars "".data) = none from rfl] at h
    exact Option.noConfusion h
  rw [executeShell_eq hne (dc_deleteMany h)]
  simp [deleteManyBranch, hjp]

theorem es_aggregate {d jp cmd a m}
    (h : matchGreedyArg "aggregate" (trimChars cmd.data) = some a)
    (hjp : jp (String.mk a.2) = .error m) :
    executeShell d jp cmd = .ok (errObj ("Invalid pipeline JSON: " ++ m)) := by
  have hne : cmd ≠ "" := by
    intro hc
    rw [hc] at h
    rw [show matchGreedyArg "aggregate" (trimChars "".data) = none from rfl] at h
    exact Option.noConfusion h
  rw [executeShell_eq hne (dc_aggregate h)]
  simp [aggregateBranch, hjp]

theorem es_createIndex {d jp cmd a m}
    (h : matchGreedyArg "createIndex" (trimChars cmd.data) = some a)
    (hjp : jp (String.mk a.2) = .error m) :
    executeShell d jp cmd = .ok (errObj ("Invalid keys JSON: " ++ m)) := by
  have hne : cmd ≠ "" := by
    intro hc
    rw [hc] at h
    rw [show matchGreedyArg "createIndex" (trimChars "".data) = none from rfl] at h
    exact Option.noConfusion h
  rw [executeShell_eq hne (dc_createIndex h)]
  simp [createIndexBranch, hjp]

theorem es_raw {d jp cmd u m}
    (h : trimChars cmd.data = '\x7b' :: u)
    (hjp : jp (String.mk (trimChars cmd.data)) = .error m) :
    executeShell d jp cmd = .ok (errObj ("Invalid JSON command: " ++ m)) := by
  have hne : cmd ≠ "" := by
    intro hc
    rw [hc] at h
    exact List.noConfusion h
  rw [executeShell_eq hne (dc_raw h)]
  simp [rawCommandBranch, hjp]

theorem es_find_swallow {d jp cmd p m}
    (h : matchFind (trimChars cmd.data) = some p)
    (hjp : jp (String.mk p.filterStr) = .error m) :
    executeShell d jp cmd = findBranch d jp p ∧
    lazyFilterOf jp p.filterStr = Json.obj [] := by
  have hne : cmd ≠ "" := by
    intro hc
    rw [hc] at h
    rw [show matchFind (trimChars "".data) = none from rfl] at h
    exact Option.noConfusion h
  exact ⟨executeShell_eq hne (dc_find h), by simp [lazyFilterOf, hjp]⟩

theorem es_findOne_swallow {d jp cmd a m}
    (h : matchLazyArg "findOne" (trimChars cmd.data) = some a)
    (hjp : jp (String.mk a.2) = .error m) :
    executeShell d jp cmd = .ok (d.findOneRes (String.mk a.1) (Json.obj [])) := by
  have hne : cmd ≠ "" := by
    intro hc
    rw [hc] at h
    rw [show matchLazyArg "findOne" (trimChars "".data) = none from rfl] at h
    exact Option.noConfusion h
  rw [executeShell_eq hne (dc_findOne h)]
  simp [findOneBranch, lazyFilterOf, hjp]

theorem es_countDocuments_swallow {d jp cmd a m}
    (h : matchLazyArg "countDocuments" (trimChars cmd.data) = some a)
    (hjp : jp (String.mk a.2) = .error m) :
    executeShell d jp cmd =
      .ok (.obj [("count", .num (Int.ofNat (d.countDocs (String.mk a.1) (Json.obj []))))]) := by
  have hne : cmd ≠ "" := by
    intro hc
    rw [hc] at h
    rw [show matchLazyArg "countDocuments" (trimChars "".data) = none from rfl] at h
    exact Option.noConfusion h
  rw [executeShell_eq hne (dc_countDocuments h)]
  simp [countBranch, lazyFilterOf, hjp]

theorem es_count_swallow {d jp cmd a m}
    (h : matchLazyArg "count" (trimChars cmd.data) = some a)
    (hjp : jp (String.mk a.2) = .error m) :
    executeShell d jp cmd =
      .ok (.obj [("count", .num (Int.ofNat (d.countDocs (String.mk a.1) (Json.obj []))))]) := by
  have hne : cmd ≠ "" := by
    intro hc
    rw [hc] at h
    rw [show matchLazyArg "count" (trimChars "".data) = none from rfl] at h
    exact Option.noConfusion h
  rw [executeShell_eq hne (dc_count h)]
  simp [countBranch, lazyFilterOf, hjp]

theorem es_remove {d jp cmd a m}
    (h : matchGreedyArg "remove" (trimChars cmd.data) = some a)
    (hjp : jp (String.mk (trimChars a.2)) = .error m) :
    executeShell d jp cmd = .ok (errObj ("Invalid filter JSON: " ++ m)) := by
  have hne : cmd ≠ "" := by
    intro hc
    rw [hc] at h
    rw [show matchGreedyArg "remove" (trimChars "".data) = none from rfl] at h
    exact Option.noConfusion h
  rw [executeShell_eq hne (dc_remove h)]
  simp [deleteManyBranch, hjp]

theorem es_sort_swallow {d jp cmd p ss m}
    (h : matchFind (trimChars cmd.data) = some p)
    (hs : p.clauses.sortStr = some ss)
    (hjp : jp (String.mk ss) = .error m) :
    executeShell d jp cmd = findBranch d jp p ∧
    findPreLimit d jp p =
      (match p.clauses.skipStr with
       | some ks =>
         (d.find (String.mk p.coll) (lazyFilterOf jp p.filterStr)).drop (parseIntDigits ks)
       | none => d.find (String.mk p.coll) (lazyFilterOf jp p.filterStr)) := by
  have hne : cmd ≠ "" := by
    intro hc
    rw [hc] at h
    rw [show matchFind (trimChars "".data) = none from rfl] at h
    exact Option.noConfusion h
  refine ⟨executeShell_eq hne (dc_find h), ?_⟩
  unfold findPreLimit
  rw [hs]
  by_cases hss : ss = []
  · simp [hss]
  · simp [hss, hjp]

/-- C3 counterexample: a `find` command whose captured filter text fails
to parse does not produce an `\x7berror: "Invalid ... JSON: ..."\x7d`
result — the parse error is swallowed, the empty filter is used, and the
caller receives the matching documents. -/
theorem C3_counterexample :
    executeShell drvEx jpFail "db.users.find(oops)" = .ok (.arr []) ∧
    jpFail "oops" = .error "Unexpected token" ∧
    ShellResult.ok (.arr []) ≠ .ok (errObj "Invalid filter JSON: Unexpected token") := by
  refine ⟨by decide, rfl, by decide⟩

/-- C3 (amended): for the mutating, aggregate, createIndex and raw-command
shapes, a captured argument that fails to parse yields the branch-specific
`\x7berror: "Invalid <kind> JSON: <message>"\x7d` data result
(`updateOne`/`updateMany` use the kind-less `Invalid JSON`); for the query
shapes `find`, `findOne`, `countDocuments` and `count`, the parse failure
is instead swallowed and the empty filter `\x7b\x7d` is used. -/
theorem C3_parse_error_results (d : Driver) (jp : String → Except String Json)
    (cmd : String) :
    (∀ a m, matchGreedyArg "insertOne" (trimChars cmd.data) = some a →
      jp (String.mk a.2) = .error m →
      executeShell d jp cmd = .ok (errObj ("Invalid document JSON: " ++ m))) ∧
    (∀ a m, matchGreedyArg "insert" (trimChars cmd.data) = some a →
      jp (String.mk a.2) = .error m →
      executeShell d jp cmd = .ok (errObj ("Invalid document JSON: " ++ m))) ∧
    (∀ a m, matchGreedyArg "insertMany" (trimChars cmd.data) = some a →
      jp (String.mk a.2) = .error m →
      executeShell d jp cmd = .ok (errObj ("Invalid documents JSON: " ++ m))) ∧
    (∀ a m, matchTwoArg "updateOne" (trimChars cmd.data) = some a →
      jp (String.mk (trimChars a.2.1)) = .error m →
      executeShell d jp cmd = .ok (errObj ("Invalid JSON: " ++ m))) ∧
    (∀ a m, matchTwoArg "updateMany" (trimChars cmd.data) = some a →
      jp (String.mk (trimChars a.2.1)) = .error m →
      executeShell d jp cmd = .ok (errObj ("Invalid JSON: " ++ m))) ∧
    (∀ a m, matchGreedyArg "deleteOne" (trimChars cmd.data) = some a →
      jp (String.mk (trimChars a.2)) = .error m →
      executeShell d jp cmd = .ok (errObj ("Invalid filter JSON: " ++ m))) ∧
    (∀ a m, matchGreedyArg "deleteMany" (trimChars cmd.data) = some a →
      jp (String.mk (trimChars a.2)) = .error m →
      executeShell d jp cmd = .ok (errObj ("Invalid filter JSON: " ++ m))) ∧
    (∀ a m, matchGreedyArg "aggregate" (trimChars cmd.data) = some a →
      jp (String.mk a.2) = .error m →
      executeShell d jp cmd = .ok (errObj ("Invalid pipeline JSON: " ++ m))) ∧
    (∀ a m, matchGreedyArg "createIndex" (trimChars cmd.data) = some a →
      jp (String.mk a.2) = .error m →
      executeShell d jp cmd = .ok (errObj ("Invalid keys JSON: " ++ m))) ∧
    (∀ u m, trimChars cmd.data = '\x7b' :: u →
      jp (String.mk (trimChars cmd.data)) = .error m →
      executeShell d jp cmd = .ok (errObj ("Invalid JSON command: " ++ m))) ∧
    (∀ p m, matchFind (trimChars cmd.data) = some p →
      jp (String.mk p.filterStr) = .error m →
      executeShell d jp cmd = findBranch d jp p ∧
        lazyFilterOf jp p.filterStr = Json.obj []) ∧
    (∀ a m, matchLazyArg "findOne" (trimChars cmd.data) = some a →
      jp (String.mk a.2) = .error m →
      executeShell d jp cmd = .ok (d.findOneRes (String.mk a.1) (Json.obj []))) ∧
    (∀ a m, matchLazyArg "countDocuments" (trimChars cmd.data) = some a →
      jp (String.mk a.2) = .error m →
      executeShell d jp cmd =
        .ok (.obj [("count", .num (Int.ofNat (d.countDocs (String.mk a.1) (Json.obj []))))])) ∧
    (∀ a m, matchLazyArg "count" (trimChars cmd.data) = some a →
      jp (String.mk a.2) = .error m →
      executeShell d jp cmd =
        .ok (.obj [("count", .num (Int.ofNat (d.countDocs (String.mk a.1) (Json.obj []))))])) ∧
    (∀ a m, matchGreedyArg "remove" (trimChars cmd.data) = some a →
      jp (String.mk (trimChars a.2)) = .error m →
      executeShell d jp cmd = .ok (errObj ("Invalid filter JSON: " ++ m))) ∧
    (∀ p ss m, matchFind (trimChars cmd.data) = some p →
      p.clauses.sortStr = some ss →
      jp (String.mk ss) = .error m →
      executeShell d jp cmd = findBranch d jp p ∧
      findPreLimit d jp p =
        (match p.clauses.skipStr with
         | some ks =>
           (d.find (String.mk p.coll) (lazyFilterOf jp p.filterStr)).drop (parseIntDigits ks)
         | none => d.find (String.mk p.coll) (lazyFilterOf jp p.filterStr))) :=
  ⟨fun _ _ h hj => es_insertOne h hj,
   fun _ _ h hj => es_insert h hj,
   fun _ _ h hj => es_insertMany h hj,
   fun _ _ h hj => es_updateOne h hj,
   fun _ _ h hj => es_updateMany h hj,
   fun _ _ h hj => es_deleteOne h hj,
   fun _ _ h hj => es_deleteMany h hj,
   fun _ _ h hj => es_aggregate h hj,
   fun _ _ h hj => es_createIndex h hj,
   fun _ _ h hj => es_raw h hj,
   fun _ _ h hj => es_find_swallow h hj,
   fun _ _ h hj => es_findOne_swallow h hj,
   fun _ _ h hj => es_countDocuments_swallow h hj,
   fun _ _ h hj => es_count_swallow h hj,
   fun _ _ h hj => es_remove h hj,
   fun _ _ _ h hs hj => es_sort_swallow h hs hj⟩

/-- Witness for C3 at concrete commands: an `insertOne` with unparseable
JSON returns the error object, while a `findOne` with unparseable JSON
swallows the failure. -/
theorem C3_witness :
    executeShell drvEx jpFail "db.users.insertOne(oops)" =
      .ok (errObj ("Invalid document JSON: " ++ "Unexpected token")) ∧
    executeShell drvEx jpFail "db.users.findOne(oops)" =
      .ok (drvEx.findOneRes "users" (Json.obj [])) ∧
    executeShell drvEx jpFail "db.users.remove(oops)" =
      .ok (errObj ("Invalid filter JSON: " ++ "Unexpected token")) ∧
    (executeShell drvEx jpFail "db.users.find(\x7b\x7d).sort(oops)" =
      findBranch drvEx jpFail
        ⟨"users".data, "\x7b\x7d".data, ⟨none, none, some "oops".data⟩⟩ ∧
     findPreLimit drvEx jpFail
        ⟨"users".data, "\x7b\x7d".data, ⟨none, none, some "oops".data⟩⟩ =
       drvEx.find "users" (lazyFilterOf jpFail "\x7b\x7d".data)) :=
  ⟨(C3_parse_error_results drvEx jpFail "db.users.insertOne(oops)").1
      ("users".data, "oops".data) "Unexpected token" (by decide) rfl,
   (C3_parse_error_results drvEx jpFail "db.users.findOne(oops)").2.2.2.2.2.2.2.2.2.2.2.1
      ("users".data, "oops".data) "Unexpected token" (by decide) rfl,
   (C3_parse_error_results drvEx jpFail
        "db.users.remove(oops)").2.2.2.2.2.2.2.2.2.2.2.2.2.2.1
      ("users".data, "oops".data) "Unexpected token" (by decide) rfl,
   (C3_parse_error_results drvEx jpFail
        "db.users.find(\x7b\x7d).sort(oops)").2.2.2.2.2.2.2.2.2.2.2.2.2.2.2
      ⟨"users".data, "\x7b\x7d".data, ⟨none, none, some "oops".data⟩⟩
      "oops".data "Unexpected token" (by decide) rfl rfl⟩

/-- C9: a shell `find` without an explicit `.limit(n)` clause is limited
to 20 documents (at most 20 are returned); with `.limit(n)` the driver
limit semantics of `n` apply instead. -/
theorem C9_find_default_limit (d : Driver) (jp : String → Except String Json)
    (cmd : String) (p : FindParts)
    (h : matchFind (trimChars cmd.data) = some p) :
    (p.clauses.limitStr = none →
      executeShell d jp cmd = .ok (.arr ((findPreLimit d jp p).take 20)) ∧
      ((findPreLimit d jp p).take 20).length ≤ 20) ∧
    (∀ ls, p.clauses.limitStr = some ls →
      executeShell d jp cmd =
        .ok (.arr (driverLimit (parseIntDigits ls) (findPreLimit d jp p)))) := by
  have hne : cmd ≠ "" := by
    intro hc
    rw [hc] at h
    rw [show matchFind (trimChars "".data) = none from rfl] at h
    exact Option.noConfusion h
  have hes : executeShell d jp cmd = findBranch d jp p := executeShell_eq hne (dc_find h)
  constructor
  · intro hl
    constructor
    · rw [hes]
      unfold findBranch
      rw [hl]
      simp [driverLimit]
    · exact List.length_take_le 20 _
  · intro ls hl
    rw [hes]
    unfold findBranch
    rw [hl]

/-- Witness for C9: a concrete `find` with no limit clause returns the
first 20 pipeline documents. -/
theorem C9_witness :
    executeShell drvEx jpFail "db.users.find(\x7b\x7d)" =
      .ok (.arr ((findPreLimit drvEx jpFail
        ⟨"users".data, "\x7b\x7d".data, ⟨none, none, none⟩⟩).take 20)) ∧
    ((findPreLimit drvEx jpFail
        ⟨"users".data, "\x7b\x7d".data, ⟨none, none, none⟩⟩).take 20).length ≤ 20 :=
  (C9_find_default_limit drvEx jpFail "db.users.find(\x7b\x7d)"
    ⟨"users".data, "\x7b\x7d".data, ⟨none, none, none⟩⟩ (by decide)).1 rfl
